import Mathlib

/-!
Shallow embedding of the core of the `msg-parser` crate (OLE2 / CFB reader and
Outlook property mapper), translated from the Rust sources:

* `src/ole/constants.rs`, `src/ole/util.rs` — constants and little-endian reads;
* `src/ole/sat.rs`   — SAT/SSAT chain walks (`build_chain_from_sat`, `build_chain_from_ssat`);
* `src/ole/header.rs` — header validation (`parse_header`);
* `src/ole/sector.rs` — `read_sector`;
* `src/ole/entry.rs` — directory entries, `build_directory_entries`,
  `get_entry_slice`, `EntrySlice::read`, `build_entry_tree`;
* `src/parser/decode.rs` — `decode_ptypstring`, `decode_ptypbinary`, `PtypDecoder::decode`;
* `src/parser/storage.rs` — `StorageType::convert_id_to_u32`, `StorageType::create`,
  `EntryStorageMap::new`, `Storages::process_streams`, `Storages::to_arr`;
* `src/parser/stream.rs` — `Stream::create`.

Machine integers (`u32`, `usize`) are modelled as `Nat`; the arithmetic in the
modelled paths never overflows (all values read are below `2^32` and sums stay
below `2^64`), so no explicit wrap-around is required.  Rust panics
(out-of-bounds indexing, slice-range violations) are modelled as `none` /
dedicated error values; loops that are not structurally bounded in the source
take an explicit fuel argument, with fuel exhaustion modelling divergence.
-/

set_option maxRecDepth 8000

namespace MsgParser

/-- Decidable equality of `Except` results, for evaluating the model on
concrete inputs. -/
instance {ε α : Type} [DecidableEq ε] [DecidableEq α] :
    DecidableEq (Except ε α) := fun a b =>
  match a, b with
  | .error e, .error f => decidable_of_iff (e = f) (by simp)
  | .ok x, .ok y => decidable_of_iff (x = y) (by simp)
  | .error _, .ok _ => .isFalse (by simp)
  | .ok _, .error _ => .isFalse (by simp)

/-! ## Constants (`src/ole/constants.rs`) -/

def HEADER_SIZE : Nat := 512

def IDENTIFIER : List Nat := [0xD0, 0xCF, 0x11, 0xE0, 0xA1, 0xB1, 0x1A, 0xE1]

def LITTLE_ENDIAN_IDENTIFIER : List Nat := [0xFE, 0xFF]

def BIG_ENDIAN_IDENTIFIER : List Nat := [0xFF, 0xFE]

def END_OF_CHAIN_SECID_U32 : Nat := 0xFFFFFFFE

def FREE_SECID_U32 : Nat := 0xFFFFFFFF

def DIRECTORY_ENTRY_SIZE : Nat := 128

/-! ## Little-endian reads (`src/ole/util.rs`)

`FromSlice for usize/u32/u64` all compute `Σ buf[i] * 256^i` over the slice. -/

def fromSliceLE (buf : List Nat) : Nat :=
  buf.foldr (fun b acc => b + 256 * acc) 0

/-! ## SAT / SSAT chain walks (`src/ole/sat.rs`)

`build_chain_from_sat` loops `while sector_index != END_OF_CHAIN` pushing the
index and stepping to `sat[sector_index]`; there is no loop detection and no
bound, so a cyclic chain makes the Rust loop run forever, and an index outside
the table panics.  `build_chain_from_ssat` also stops on `FREE_SECID`.
`WalkResult.panicked` models the out-of-bounds panic, `WalkResult.fuelOut`
models exceeding the given step budget (divergence when the budget is
arbitrary). -/

inductive WalkResult where
  | ok (chain : List Nat)
  | panicked
  | fuelOut
deriving DecidableEq, Repr

def buildChainFromSat (sat : List Nat) : Nat → Nat → WalkResult
  | _, 0 => .fuelOut
  | sectorIndex, fuel + 1 =>
    if sectorIndex = END_OF_CHAIN_SECID_U32 then .ok []
    else
      match sat[sectorIndex]? with
      | none => .panicked
      | some next =>
        match buildChainFromSat sat next fuel with
        | .ok chain => .ok (sectorIndex :: chain)
        | r => r

def buildChainFromSsat (ssat : List Nat) : Nat → Nat → WalkResult
  | _, 0 => .fuelOut
  | sectorIndex, fuel + 1 =>
    if sectorIndex = END_OF_CHAIN_SECID_U32 ∨ sectorIndex = FREE_SECID_U32 then .ok []
    else
      match ssat[sectorIndex]? with
      | none => .panicked
      | some next =>
        match buildChainFromSsat ssat next fuel with
        | .ok chain => .ok (sectorIndex :: chain)
        | r => r

/-! ## OLE errors (`src/ole/error.rs`)

`IOError` carries a `std::io::Error` payload that the modelled paths never
inspect, so it is modelled as a bare constructor. -/

inductive OleError where
  | badFileSize
  | ioError
  | notImplementedYet
  | invalidOLEFile
  | badSizeValue (msg : String)
  | emptyMasterSectorAllocationTable
  | notSectorUsedBySAT
  | nodeTypeUnknown
  | badRootStorageSize
  | emptyEntry
deriving DecidableEq, Repr

/-! ## Header validation (`src/ole/header.rs`, `parse_header`)

`parse_header` reads the first 512 bytes and walks a cascade of checks; on
success it populates the sizes and the heads of the DSAT/SSAT chains and then
builds the MSAT.  The MSAT construction reads further sectors from the input
stream; it is outside the two claims about header validation, so the model
stops at the point where all validation has happened and the scalar fields
are populated (the `Ok` payload below). -/

structure HeaderInfo where
  uid : List Nat
  revisionNumber : Nat
  versionNumber : Nat
  secSize : Nat
  shortSecSize : Nat
  minimumStandardStreamSize : Nat
  dsatStart : Nat
  ssatStart : Nat
deriving DecidableEq, Repr

/-- `&buf[a .. b]` on a byte slice. -/
def sliceBytes (l : List Nat) (a b : Nat) : List Nat :=
  (l.drop a).take (b - a)

def parseHeader (header : List Nat) : Except OleError HeaderInfo :=
  if sliceBytes header 0 8 ≠ IDENTIFIER then
    .error .invalidOLEFile
  else if sliceBytes header 28 30 = BIG_ENDIAN_IDENTIFIER then
    .error .notImplementedYet
  else if sliceBytes header 28 30 ≠ LITTLE_ENDIAN_IDENTIFIER then
    .error .invalidOLEFile
  else
    let k := fromSliceLE (sliceBytes header 30 32)
    if 16 ≤ k then
      .error (.badSizeValue "Overflow on sector\n            size")
    else
      let k2 := fromSliceLE (sliceBytes header 32 34)
      if 16 ≤ k2 then
        .error (.badSizeValue "Overflow on short sector size")
      else
        let minStd := fromSliceLE (sliceBytes header 56 60)
        if minStd < 4096 then
          .error .invalidOLEFile
        else
          .ok {
            uid := sliceBytes header 8 24
            revisionNumber := fromSliceLE (sliceBytes header 24 26)
            versionNumber := fromSliceLE (sliceBytes header 26 28)
            secSize := 2 ^ k
            shortSecSize := 2 ^ k2
            minimumStandardStreamSize := minStd
            dsatStart := fromSliceLE (sliceBytes header 48 52)
            ssatStart := fromSliceLE (sliceBytes header 60 64)
          }

/-- Whether a header-parse result is a `BadSizeValue` error (with any
message). -/
def isBadSizeValue : Except OleError HeaderInfo → Bool
  | .error (.badSizeValue _) => true
  | _ => false

/-! ## Property decoding (`src/parser/decode.rs`)

`DataType::PtypString` carries a decoded Rust `String`; strings are modelled
as lists of Unicode scalar values (code points), which is what
`String::from_utf16` produces.  `PtypDecoder::decode` first reads the whole
entry slice into a buffer; the model receives that buffer directly. -/

inductive DataType where
  | ptypString (codepoints : List Nat)
  | ptypBinary (bytes : List Nat)
deriving DecidableEq, Repr

inductive DataTypeError where
  | unknownCode (code : List Char)
  | utf8Err
  | utf16Err
deriving DecidableEq, Repr

/-- The byte-pairing loop of `decode_ptypstring`: consume bytes two at a time
as little-endian `u16` code units; a trailing lone byte is padded with a zero
high byte. -/
def pairLEUnits : List Nat → List Nat
  | [] => []
  | [c1] => [c1]
  | c1 :: c2 :: rest => (c1 + 256 * c2) :: pairLEUnits rest

/-- `String::from_utf16`: code units below the surrogate range (or at or above
`0xE000`) decode directly; a high surrogate must be followed by a low
surrogate; anything else is a decode error. -/
def utf16Decode : List Nat → Option (List Nat)
  | [] => some []
  | [u] =>
    if u < 0xD800 ∨ 0xE000 ≤ u then some [u] else none
  | u :: v :: rest =>
    if u < 0xD800 ∨ 0xE000 ≤ u then
      (utf16Decode (v :: rest)).map (fun tl => u :: tl)
    else if u < 0xDC00 then
      if 0xDC00 ≤ v ∧ v < 0xE000 then
        (utf16Decode rest).map
          (fun tl => (0x10000 + (u - 0xD800) * 0x400 + (v - 0xDC00)) :: tl)
      else none
    else none

def decode_ptypstring (buff : List Nat) : Except DataTypeError DataType :=
  match utf16Decode (pairLEUnits buff) with
  | some decoded => .ok (.ptypString decoded)
  | none => .error .utf16Err

def decode_ptypbinary (buff : List Nat) : Except DataTypeError DataType :=
  .ok (.ptypBinary buff)

def ptypDecoderDecode (buff : List Nat) (code : List Char) : Except DataTypeError DataType :=
  if code = "0x001F".toList then decode_ptypstring buff
  else if code = "0x0102".toList then decode_ptypbinary buff
  else .error (.unknownCode code)

/-- UTF-16 encoding of a sequence of Unicode scalar values (code units). -/
def utf16EncodeUnits : List Nat → List Nat
  | [] => []
  | c :: rest =>
    if c < 0x10000 then c :: utf16EncodeUnits rest
    else (0xD800 + (c - 0x10000) / 0x400) :: (0xDC00 + (c - 0x10000) % 0x400)
      :: utf16EncodeUnits rest

/-- The UTF-16LE byte encoding named by the round-trip property in the spec:
each code unit is laid out as low byte then high byte. -/
def encode_utf16le (s : List Nat) : List Nat :=
  (utf16EncodeUnits s).flatMap (fun u => [u % 256, u / 256])

/-! ## Directory entry types (`src/ole/entry.rs`, `EntryType`) -/

inductive EntryType where
  | empty
  | userStorage
  | userStream
  | lockBytes
  | property
  | rootStorage
deriving DecidableEq, Repr

/-! ## Storage classification (`src/parser/storage.rs`)

Names are modelled as lists of characters.  `str::starts_with`,
`str::split('#')` and `hex::decode` are modelled by the recursive functions
below.  Rust indexing `[1]` into the split result panics when the name holds
no `#`; panics are modelled as `Except.error ()`. -/

inductive StorageType where
  | recipient (n : Nat)
  | attachment (n : Nat)
  | rootEntry
deriving DecidableEq, Repr

/-- `str::starts_with` on character lists. -/
def startsWith : List Char → List Char → Bool
  | [], _ => true
  | _, [] => false
  | p :: ps, c :: cs => p = c && startsWith ps cs

/-- `str::split('#')`, via an accumulator for the current fragment. -/
def splitHashAux : List Char → List Char → List (List Char)
  | [], acc => [acc.reverse]
  | c :: rest, acc =>
    if c = '#' then acc.reverse :: splitHashAux rest []
    else splitHashAux rest (c :: acc)

def splitHash (l : List Char) : List (List Char) :=
  splitHashAux l []

/-- One digit of `hex::decode` (both letter cases accepted). -/
def hexDigitVal? (c : Char) : Option Nat :=
  if '0' ≤ c ∧ c ≤ '9' then some (c.toNat - '0'.toNat)
  else if 'a' ≤ c ∧ c ≤ 'f' then some (c.toNat - 'a'.toNat + 10)
  else if 'A' ≤ c ∧ c ≤ 'F' then some (c.toNat - 'A'.toNat + 10)
  else none

/-- `hex::decode`: pairs of hex digits to bytes; odd length or a non-hex
character fails. -/
def hexDecode : List Char → Option (List Nat)
  | [] => some []
  | [_] => none
  | c1 :: c2 :: rest =>
    match hexDigitVal? c1, hexDigitVal? c2, hexDecode rest with
    | some hi, some lo, some bs => some ((16 * hi + lo) :: bs)
    | _, _, _ => none

def U32_MAX : Nat := 0xFFFFFFFF

/-- The accumulation loop of `convert_id_to_u32`: iterate over the decoded
bytes in reverse, adding `num * base`; once `base` reaches `MAX / 256` the
loop breaks after the addition, otherwise `base` is multiplied by 256.
(The values involved never exceed `u32::MAX`, so `Nat` arithmetic agrees
with the `u32` arithmetic of the source.) -/
def convertLoop : List Nat → Nat → Nat → Nat
  | [], _, sum => sum
  | num :: rest, base, sum =>
    let sum' := sum + num * base
    if U32_MAX / 256 ≤ base then sum'
    else convertLoop rest (base * 256) sum'

def convertIdToU32 (id : List Char) : Option Nat :=
  if id.length ≠ 8 then none
  else
    match hexDecode id with
    | none => none
    | some decoded => some (convertLoop decoded.reverse 1 0)

/-- MSB-first interpretation of a hex digit sequence (the specification
formulation `n = parse_hex_be(s)`, stated over the digit values). -/
def parseHexBE (digits : List Nat) : Nat :=
  digits.foldl (fun a d => 16 * a + d) 0

def RECIP_MARKER : List Char := "__recip_version1.0_".toList

def ATTACH_MARKER : List Char := "__attach_version1.0_".toList

/-- `StorageType::create`; `Except.error ()` models the `[1]` indexing panic
on a matching name that holds no `#`. -/
def storageTypeCreate (name : List Char) : Except Unit (Option StorageType) :=
  if startsWith RECIP_MARKER name then
    match (splitHash name)[1]? with
    | none => .error ()
    | some id =>
      match convertIdToU32 id with
      | none => .ok none
      | some n => .ok (some (.recipient n))
  else if startsWith ATTACH_MARKER name then
    match (splitHash name)[1]? with
    | none => .error ()
    | some id =>
      match convertIdToU32 id with
      | none => .ok none
      | some n => .ok (some (.attachment n))
  else .ok none

/-- The fields of an `ole::Entry` that `EntryStorageMap::new` consumes. -/
structure SEntry where
  id : Nat
  entryType : EntryType
  name : List Char
deriving DecidableEq, Repr

/-- The storage type an entry contributes to the map in the loop of
`EntryStorageMap::new`: a `RootStorage` inserts `RootEntry`, a `UserStorage`
inserts the result of `StorageType::create` when it is `Some`, every other
entry is skipped. -/
def classifyEntry (e : SEntry) : Except Unit (Option StorageType) :=
  match e.entryType with
  | .rootStorage => .ok (some .rootEntry)
  | .userStorage => storageTypeCreate e.name
  | _ => .ok none

/-- `HashMap::insert` on the function model of the id-to-storage map. -/
def mapInsert (m : Nat → Option StorageType) (key : Nat) (v : StorageType) :
    Nat → Option StorageType :=
  fun k => if k = key then some v else m k

/-- `EntryStorageMap::new`, iterating the directory entries in order and
inserting into a map from entry id to storage type.  The `HashMap` is
modelled as a function from keys to optional values (`insert` overwrites). -/
def entryStorageMapFrom (m : Nat → Option StorageType) :
    List SEntry → Except Unit (Nat → Option StorageType)
  | [] => .ok m
  | e :: rest =>
    match classifyEntry e with
    | .error () => .error ()
    | .ok none => entryStorageMapFrom m rest
    | .ok (some st) => entryStorageMapFrom (mapInsert m e.id st) rest

def entryStorageMap (es : List SEntry) : Except Unit (Nat → Option StorageType) :=
  entryStorageMapFrom (fun _ => none) es

/-! ## Streams (`src/parser/stream.rs`)

`Stream::create` parses the name of a `__substg1.0_` stream into a property
id and a type code, resolves the id in the property-id map (whose table lives
in `src/parser/constants.rs` and is abstracted here as a function from
property-id strings to optional canonical names), and decodes the entry bytes
by type.  `Except.error ()` models the indexing/slicing panics on degenerate
names. -/

structure Stream where
  parent : StorageType
  key : String
  value : DataType
deriving DecidableEq, Repr

/-- `str::split('_')` (same shape as `splitHash`). -/
def splitUnderscoreAux : List Char → List Char → List (List Char)
  | [], acc => [acc.reverse]
  | c :: rest, acc =>
    if c = '_' then acc.reverse :: splitUnderscoreAux rest []
    else splitUnderscoreAux rest (c :: acc)

def splitUnderscore (l : List Char) : List (List Char) :=
  splitUnderscoreAux l []

/-- `Stream::extract_id_and_datatype`: split the name on underscores, drop
empty fragments, take fragment 1 as the tag, and slice the first and last
four characters.  `none` models the panics (`[1]` missing, or `&tag[..4]` /
`&tag[tag.len() - 4..]` out of bounds). -/
def extractIdAndDatatype (name : List Char) : Option (List Char × List Char) :=
  match ((splitUnderscore name).filter (fun x => 0 < x.length))[1]? with
  | none => none
  | some tag =>
    if tag.length < 4 then none
    else some ('0' :: 'x' :: tag.take 4, '0' :: 'x' :: tag.drop (tag.length - 4))

def SUBSTG_MARKER : List Char := "__substg1.0".toList

/-- `Stream::is_stream`. -/
def isStreamName (name : List Char) : Bool :=
  startsWith SUBSTG_MARKER name

/-- `Stream::create`.  `buff` is the byte content of the entry slice (read by
`PtypDecoder::decode`); `propMap` is `PropIdNameMap::get_canonical_name`. -/
def streamCreate (name : List Char) (buff : List Nat)
    (propMap : List Char → Option String) (parent : StorageType) :
    Except Unit (Option Stream) :=
  if !isStreamName name then .ok none
  else
    match extractIdAndDatatype name with
    | none => .error ()
    | some (propId, propDatatype) =>
      match propMap propId with
      | none => .ok none
      | some key =>
        match ptypDecoderDecode buff propDatatype with
        | .error _ => .ok none
        | .ok value => .ok (some { parent := parent, key := key, value := value })

/-! ## Stream routing (`src/parser/storage.rs`, `Storages`)

`process_streams` walks all directory entries; for each `UserStream` it
builds a `Stream` (via the storage map over the parent id and the entry
slice) and routes the decoded key/value into the root bucket or into the
per-recipient / per-attachment maps; failures skip the entry.

Models used here:
* `Properties = HashMap<String, DataType>` is an association list in
  first-insertion order with overwrite-in-place (`propsInsert`), a faithful
  lookup model of a hash map;
* `HashMap<u32, Properties>` is an association list kept sorted by key
  (`bucketsUpsert`): the iteration order of the Rust hash map is unspecified
  and `Storages::to_arr` sorts the pairs by key before projecting the values,
  so composing the two equals reading off the canonically sorted map, with
  `toArr` the value projection;
* each processed entry carries the byte content of its entry slice
  (`slice = some buff`), or `none` when `get_entry_slice` failed. -/

def Props := List (String × DataType)
deriving DecidableEq, Repr

/-- `HashMap::insert` on an association list: overwrite in place, else
append. -/
def propsInsert : Props → String → DataType → Props
  | [], k, v => [(k, v)]
  | (k', v') :: rest, k, v =>
    if k' = k then (k, v) :: rest else (k', v') :: propsInsert rest k v

/-- `map.entry(id).or_insert(HashMap::new())` followed by an insert into the
bucket, on the sorted association list. -/
def bucketsUpsert : List (Nat × Props) → Nat → String × DataType → List (Nat × Props)
  | [], i, kv => [(i, propsInsert [] kv.1 kv.2)]
  | (j, p) :: rest, i, kv =>
    if i < j then (i, propsInsert [] kv.1 kv.2) :: (j, p) :: rest
    else if i = j then (j, propsInsert p kv.1 kv.2) :: rest
    else (j, p) :: bucketsUpsert rest i kv

/-- `Storages::to_arr`: sort the key-value pairs by key, keep the values.  On
the sorted representation the sort is the identity. -/
def toArr (m : List (Nat × Props)) : List Props :=
  m.map Prod.snd

/-- The fields of an `ole::Entry` that `process_streams` consumes, with the
byte content its entry slice yields (`none` when `get_entry_slice` fails). -/
structure PEntry where
  entryType : EntryType
  name : List Char
  parentNode : Option Nat
  slice : Option (List Nat)
deriving DecidableEq, Repr

/-- `Storages::create_stream`: resolve the parent storage type, get the entry
slice, build the stream; any `None` along the way discards the entry. -/
def createStream (storageMap : Nat → Option StorageType)
    (propMap : List Char → Option String) (e : PEntry) :
    Except Unit (Option Stream) :=
  match e.parentNode with
  | none => .ok none
  | some p =>
    match storageMap p with
    | none => .ok none
    | some parent =>
      match e.slice with
      | none => .ok none
      | some buff => streamCreate e.name buff propMap parent

/-- The loop body of `Storages::process_streams`, with the three buckets as
accumulators. -/
def processStreamsAux (storageMap : Nat → Option StorageType)
    (propMap : List Char → Option String) :
    List PEntry → Props → List (Nat × Props) → List (Nat × Props) →
    Except Unit (Props × List (Nat × Props) × List (Nat × Props))
  | [], root, rmap, amap => .ok (root, rmap, amap)
  | e :: rest, root, rmap, amap =>
    if e.entryType = .userStream then
      match createStream storageMap propMap e with
      | .error () => .error ()
      | .ok none => processStreamsAux storageMap propMap rest root rmap amap
      | .ok (some s) =>
        match s.parent with
        | .rootEntry =>
          processStreamsAux storageMap propMap rest (propsInsert root s.key s.value) rmap amap
        | .recipient i =>
          processStreamsAux storageMap propMap rest root (bucketsUpsert rmap i (s.key, s.value)) amap
        | .attachment i =>
          processStreamsAux storageMap propMap rest root rmap (bucketsUpsert amap i (s.key, s.value))
    else processStreamsAux storageMap propMap rest root rmap amap

/-- The final state of `Storages` after `process_streams`. -/
structure ProcessOut where
  root : Props
  recipients : List Props
  attachments : List Props
deriving DecidableEq, Repr

def processStreams (storageMap : Nat → Option StorageType)
    (propMap : List Char → Option String) (entries : List PEntry) :
    Except Unit ProcessOut :=
  match processStreamsAux storageMap propMap entries [] [] [] with
  | .error () => .error ()
  | .ok (root, rmap, amap) =>
    .ok { root := root, recipients := toArr rmap, attachments := toArr amap }

/-- The stream an entry contributes, if any (successful `create_stream` on a
`UserStream`); the routing in `process_streams` consumes exactly these. -/
def streamOf (storageMap : Nat → Option StorageType)
    (propMap : List Char → Option String) (e : PEntry) : Option Stream :=
  if e.entryType = .userStream then
    match createStream storageMap propMap e with
    | .ok (some s) => some s
    | _ => none
  else none

/-- The (index, key, value) triples routed to recipient buckets, in entry
order. -/
def recipKVs (storageMap : Nat → Option StorageType)
    (propMap : List Char → Option String) (entries : List PEntry) :
    List (Nat × String × DataType) :=
  entries.filterMap (fun e =>
    match streamOf storageMap propMap e with
    | some s =>
      match s.parent with
      | .recipient i => some (i, s.key, s.value)
      | _ => none
    | none => none)

/-- The attachment analogue of `recipKVs`. -/
def attachKVs (storageMap : Nat → Option StorageType)
    (propMap : List Char → Option String) (entries : List PEntry) :
    List (Nat × String × DataType) :=
  entries.filterMap (fun e =>
    match streamOf storageMap propMap e with
    | some s =>
      match s.parent with
      | .attachment i => some (i, s.key, s.value)
      | _ => none
    | none => none)

/-- Sorted insertion without duplication, the key order `bucketsUpsert`
maintains. -/
def insertSortedDedup : List Nat → Nat → List Nat
  | [], i => [i]
  | j :: rest, i =>
    if i < j then i :: j :: rest
    else if i = j then j :: rest
    else j :: insertSortedDedup rest i

/-- Ascending duplicate-free arrangement of a list of indices. -/
def sortedDedup (l : List Nat) : List Nat :=
  l.foldl insertSortedDedup []

/-- Merge a list of (index, key, value) triples into one property map. -/
def kvFold (kvs : List (Nat × String × DataType)) : Props :=
  kvs.foldl (fun p kv => propsInsert p kv.2.1 kv.2.2) []

/-! ## Sector reads (`src/ole/sector.rs`, `read_sector`) -/

def readSector (secSize : Nat) (body : List Nat) (sectorIndex : Nat) :
    Except OleError (List Nat) :=
  let offset := secSize * sectorIndex
  let maxSize := offset + secSize
  if maxSize ≤ body.length then .ok ((body.drop offset).take secSize)
  else .error (.badSizeValue "File is too short")

/-! ## Entry slices (`src/ole/entry.rs`, `EntrySlice` and `get_entry_slice`)

`Fault.panicked` models Rust panics (out-of-range indexing, slice-range
violations, division by zero); `Fault.oleErr` models errors the code returns.
The `EntrySlice::read` loop takes a step budget of `to_read + 1`: every
terminating execution of the Rust loop copies at least one byte per iteration
or breaks, so it fits in that budget, and an execution that stops making
progress repeats its state forever, which the model maps to `none`. -/

inductive Fault where
  | oleErr (e : OleError)
  | panicked
deriving DecidableEq, Repr

structure EntrySlice where
  maxChunkSize : Nat
  chunks : List (List Nat)
  read : Nat
  totalSize : Nat
  realSize : Nat
deriving DecidableEq, Repr

def entrySliceNew (maxChunkSize size : Nat) : EntrySlice :=
  { maxChunkSize := maxChunkSize, chunks := [], read := 0, totalSize := size, realSize := 0 }

def addChunk (es : EntrySlice) (chunk : List Nat) : EntrySlice :=
  { es with chunks := es.chunks ++ [chunk], realSize := es.realSize + chunk.length }

/-- Loop body of `Reader::get_stream_slices`: for each sector of the chain,
read it and keep its first `min(sector_size, size - total_read)` bytes. -/
def getStreamSlicesAux (secSize : Nat) (body : List Nat) (size : Nat) :
    List Nat → Nat → EntrySlice → Except Fault EntrySlice
  | [], _, es => .ok es
  | sectorId :: rest, totalRead, es =>
    match readSector secSize body sectorId with
    | .error e => .error (.oleErr e)
    | .ok sector =>
      let endI := min secSize (size - totalRead)
      getStreamSlicesAux secSize body size rest (totalRead + endI)
        (addChunk es (sector.take endI))

def getStreamSlices (secSize : Nat) (body : List Nat) (chain : List Nat)
    (size : Nat) : Except Fault EntrySlice :=
  getStreamSlicesAux secSize body size chain 0 (entrySliceNew secSize size)

/-- Loop body of `Reader::get_short_stream_slices`: locate the big sector
holding each mini-sector through the root chain, then carve the mini-sector
range out of it. -/
def getShortStreamSlicesAux (ssectorSize secSize : Nat) (body : List Nat)
    (rootChain : List Nat) (size nPerSector : Nat) :
    List Nat → Nat → EntrySlice → Except Fault EntrySlice
  | [], _, es => .ok es
  | ssectorId :: rest, totalRead, es =>
    if nPerSector = 0 then .error .panicked
    else
      match rootChain[ssectorId / nPerSector]? with
      | none => .error .panicked
      | some sectorIndex =>
        match readSector secSize body sectorIndex with
        | .error e => .error (.oleErr e)
        | .ok sector =>
          let ssectorIndex := ssectorId % nPerSector
          let start := ssectorIndex * ssectorSize
          let endI := start + min ssectorSize (size - totalRead)
          if endI ≤ sector.length then
            getShortStreamSlicesAux ssectorSize secSize body rootChain size nPerSector
              rest (totalRead + (endI - start))
              (addChunk es ((sector.drop start).take (endI - start)))
          else .error .panicked

def getShortStreamSlices (ssectorSize secSize : Nat) (body : List Nat)
    (rootChain : List Nat) (chain : List Nat) (size : Nat) :
    Except Fault EntrySlice :=
  getShortStreamSlicesAux ssectorSize secSize body rootChain size
    (secSize / ssectorSize) chain 0 (entrySliceNew ssectorSize size)

/-- `Reader::get_entry_slice`: empty entries are an error; short entries go
through the mini-stream (`rootChain` is the sector chain of directory entry 0,
the root storage), standard entries read full sectors. -/
def getEntrySlice (secSize ssectorSize minStd : Nat) (body : List Nat)
    (rootChain : List Nat) (chain : List Nat) (size : Nat) :
    Except Fault EntrySlice :=
  if size = 0 then .error (.oleErr .emptyEntry)
  else if size < minStd then
    getShortStreamSlices ssectorSize secSize body rootChain chain size
  else
    getStreamSlices secSize body chain size

/-- The `while read != to_read` loop of `EntrySlice::read`.  `startRead` is
the value of `self.read` on entry; `self.read` advances in lockstep with
`read`, so the chunk offset is always `startRead + read`. -/
def esReadLoop (chunks : List (List Nat)) (maxChunkSize startRead toRead : Nat) :
    Nat → Nat → Option Nat
  | fuel, read =>
    if read = toRead then some read
    else
      match fuel with
      | 0 => none
      | fuel + 1 =>
        if maxChunkSize = 0 then none
        else
          let offset := startRead + read
          let chunkIndex := offset / maxChunkSize
          match chunks[chunkIndex]? with
          | none => some read
          | some chunk =>
            let localOffset := offset % maxChunkSize
            let endI := min (localOffset + (toRead - read)) maxChunkSize
            if localOffset ≤ endI ∧ endI ≤ chunk.length then
              esReadLoop chunks maxChunkSize startRead toRead fuel
                (read + (endI - localOffset))
            else none

/-- `EntrySlice::read` against a buffer of length `bufLen`; returns the byte
count and the advanced slice. -/
def esRead (es : EntrySlice) (bufLen : Nat) : Option (Nat × EntrySlice) :=
  let toRead := min bufLen (es.totalSize - es.read)
  if toRead = 0 then some (0, es)
  else
    match esReadLoop es.chunks es.maxChunkSize es.read toRead (toRead + 1) 0 with
    | none => none
    | some read => some (read, { es with read := es.read + read })

/-- The resolved chain of a standard stream covers its contents: sectors are
non-degenerate, each chain member lies inside the body, and the chain is long
enough for the entry size. -/
def StdCovers (secSize : Nat) (body chain : List Nat) (size : Nat) : Prop :=
  0 < secSize ∧ (∀ s ∈ chain, secSize * s + secSize ≤ body.length)
    ∧ size ≤ chain.length * secSize

/-- The resolved mini-sector chain of a short stream covers its contents:
mini-sectors are non-degenerate and at most a sector, every mini-sector maps
through the root chain to a sector inside the body, and the chain is long
enough for the entry size. -/
def ShortCovers (ssectorSize secSize : Nat) (body rootChain chain : List Nat)
    (size : Nat) : Prop :=
  0 < ssectorSize ∧ ssectorSize ≤ secSize
    ∧ (∀ m ∈ chain, ∃ r, rootChain[m / (secSize / ssectorSize)]? = some r
        ∧ secSize * r + secSize ≤ body.length)
    ∧ size ≤ chain.length * ssectorSize

/-! ## Chain resolution per directory entry (`src/ole/entry.rs`,
`build_directory_entries`, second loop)

`from_slice` seeds `sec_id_chain` with the single start sector (bytes
116..120); the resolution loop pops it and rebuilds the chain from the SSAT
for short user streams, from the SAT for standard user streams and for the
root storage, and leaves other entries untouched. -/

def resolveEntryChain (minStd : Nat) (sat ssat : List Nat) (fuel : Nat)
    (entryType : EntryType) (startSector size : Nat) : WalkResult :=
  match entryType with
  | .userStream =>
    if size < minStd then buildChainFromSsat ssat startSector fuel
    else buildChainFromSat sat startSector fuel
  | .rootStorage => buildChainFromSat sat startSector fuel
  | _ => .ok [startSector]

/-! ## Directory tree reconstruction (`src/ole/entry.rs`, `build_entry_tree`)

The recursion stops on `FREE_SECID`; the node is then indexed directly (a
panic when out of range), its parent pointer is set, it is appended to the
children of its parent, storages recurse into `root_node` unconditionally,
and the left/right silbing pointers recurse only when below the entry count.
The recursion is not structurally bounded (sibling pointers may form cycles),
so it takes fuel; `TreeErr.panicOOB` models an out-of-range index panic. -/

structure TreeEntry where
  entryType : EntryType
  leftChildNode : Nat
  rightChildNode : Nat
  rootNode : Nat
  parentNode : Option Nat
  childrenNodes : List Nat
deriving DecidableEq, Repr

inductive TreeErr where
  | panicOOB
  | outOfFuel
deriving DecidableEq, Repr

/-- `self.entries[parent_id.unwrap()].children_nodes.push(id)`, performed when
the node has a parent (`entries` here has already received the parent-pointer
update for `id`). -/
def registerChild (entries : List TreeEntry) (parentId : Option Nat)
    (id : Nat) : Except TreeErr (List TreeEntry) :=
  match parentId with
  | none => .ok entries
  | some p =>
    match entries[p]? with
    | none => .error .panicOOB
    | some pe =>
      .ok (entries.set p { pe with childrenNodes := pe.childrenNodes ++ [id] })

def buildEntryTree : Nat → Nat → Option Nat → List TreeEntry →
    Except TreeErr (List TreeEntry)
  | 0, _, _, _ => .error .outOfFuel
  | fuel + 1, id, parentId, entries =>
    if id = FREE_SECID_U32 then .ok entries
    else
      match entries[id]? with
      | none => .error .panicOOB
      | some e =>
        match registerChild (entries.set id { e with parentNode := parentId })
            parentId id with
        | .error err => .error err
        | .ok entriesB =>
          match entriesB[id]? with
          | none => .error .panicOOB
          | some e1 =>
            match (if e1.entryType = .rootStorage ∨ e1.entryType = .userStorage
                then buildEntryTree fuel e1.rootNode (some id) entriesB
                else .ok entriesB) with
            | .error err => .error err
            | .ok entriesC =>
              match entriesC[id]? with
              | none => .error .panicOOB
              | some e2 =>
                match (if e2.leftChildNode < entriesC.length
                    then buildEntryTree fuel e2.leftChildNode parentId entriesC
                    else .ok entriesC) with
                | .error err => .error err
                | .ok entriesD =>
                  if e2.rightChildNode < entriesC.length then
                    buildEntryTree fuel e2.rightChildNode parentId entriesD
                  else .ok entriesD

/-- The range discipline the claim asserts for `root_node` pointers: every
storage node points at `FREE_SECID` or inside the entry table. -/
def goodRoots (entries : List TreeEntry) : Prop :=
  ∀ e ∈ entries, (e.entryType = .rootStorage ∨ e.entryType = .userStorage) →
    e.rootNode = FREE_SECID_U32 ∨ e.rootNode < entries.length

instance (entries : List TreeEntry) : Decidable (goodRoots entries) := by
  unfold goodRoots; infer_instance

/-- Every sector id pushed into a SAT chain was tested against the terminator
and is immediately used to index the table: all members of a returned chain
are in-range indices of `sat` and none is `END_OF_CHAIN`. -/
theorem buildChainFromSat_mem (sat : List Nat) :
    ∀ fuel start chain, buildChainFromSat sat start fuel = .ok chain →
      ∀ x ∈ chain, x < sat.length ∧ x ≠ END_OF_CHAIN_SECID_U32 := by
  intro fuel
  induction fuel with
  | zero => intro start chain h; simp [buildChainFromSat] at h
  | succ n ih =>
    intro start chain h x hx
    rw [buildChainFromSat] at h
    split at h
    · simp only [WalkResult.ok.injEq] at h
      subst h; simp at hx
    · rename_i hstart
      split at h
      · simp at h
      · rename_i next hg
        split at h
        · rename_i c hr
          simp only [WalkResult.ok.injEq] at h
          subst h
          rcases List.mem_cons.mp hx with rfl | hx'
          · exact ⟨(List.getElem?_eq_some.mp hg).1, hstart⟩
          · exact ih next c hr x hx'
        · rename_i hne
          exact absurd h (hne chain)

/-- SSAT analogue: members of a returned chain are in-range indices of `ssat`
and none is `END_OF_CHAIN` or `FREE_SECID` (both stop the walk). -/
theorem buildChainFromSsat_mem (ssat : List Nat) :
    ∀ fuel start chain, buildChainFromSsat ssat start fuel = .ok chain →
      ∀ x ∈ chain, x < ssat.length ∧ x ≠ END_OF_CHAIN_SECID_U32 ∧ x ≠ FREE_SECID_U32 := by
  intro fuel
  induction fuel with
  | zero => intro start chain h; simp [buildChainFromSsat] at h
  | succ n ih =>
    intro start chain h x hx
    rw [buildChainFromSsat] at h
    split at h
    · simp only [WalkResult.ok.injEq] at h
      subst h; simp at hx
    · rename_i hstart
      push_neg at hstart
      split at h
      · simp at h
      · rename_i next hg
        split at h
        · rename_i c hr
          simp only [WalkResult.ok.injEq] at h
          subst h
          rcases List.mem_cons.mp hx with rfl | hx'
          · exact ⟨(List.getElem?_eq_some.mp hg).1, hstart.1, hstart.2⟩
          · exact ih next c hr x hx'
        · rename_i hne
          exact absurd h (hne chain)

/-- Pigeonhole: a duplicate-free list of indices below `n` has at most `n`
elements. -/
theorem nodup_list_lt_length_le {l : List Nat} {n : Nat} (hnd : l.Nodup)
    (hlt : ∀ x ∈ l, x < n) : l.length ≤ n := by
  have h1 : l.toFinset ⊆ Finset.range n := by
    intro x hx
    exact Finset.mem_range.mpr (hlt x (List.mem_toFinset.mp hx))
  have h2 := Finset.card_le_card h1
  rwa [List.toFinset_card_of_nodup hnd, Finset.card_range] at h2

/-- On the one-sector table `[0]` (whose single entry points back to sector 0),
the SAT walk started at 0 revisits sector 0 forever: whatever step budget it
is given, it runs out of it instead of terminating or reporting an error. -/
theorem buildChainFromSat_self_loop : ∀ fuel, buildChainFromSat [0] 0 fuel = .fuelOut := by
  intro fuel
  induction fuel with
  | zero => rfl
  | succ n ih => rw [buildChainFromSat]; simp [END_OF_CHAIN_SECID_U32, ih]

/-- SSAT analogue of `buildChainFromSat_self_loop`. -/
theorem buildChainFromSsat_self_loop : ∀ fuel, buildChainFromSsat [0] 0 fuel = .fuelOut := by
  intro fuel
  induction fuel with
  | zero => rfl
  | succ n ih =>
    rw [buildChainFromSsat]
    simp [END_OF_CHAIN_SECID_U32, FREE_SECID_U32, ih]

/-- C6: header validation is a trichotomy: a first-8-bytes mismatch with the
OLE magic fails with `InvalidOLEFile`; otherwise the endianness marker bytes
28..30 equal to `FF FE` fail with `NotImplementedYet`; otherwise a marker
different from `FE FF` fails with `InvalidOLEFile`. -/
theorem header_validation_trichotomy (header : List Nat)
    (hlen : header.length = HEADER_SIZE) :
    (sliceBytes header 0 8 ≠ IDENTIFIER →
      parseHeader header = .error .invalidOLEFile)
    ∧ (sliceBytes header 0 8 = IDENTIFIER →
        sliceBytes header 28 30 = BIG_ENDIAN_IDENTIFIER →
        parseHeader header = .error .notImplementedYet)
    ∧ (sliceBytes header 0 8 = IDENTIFIER →
        sliceBytes header 28 30 ≠ BIG_ENDIAN_IDENTIFIER →
        sliceBytes header 28 30 ≠ LITTLE_ENDIAN_IDENTIFIER →
        parseHeader header = .error .invalidOLEFile) := by
  refine ⟨?_, ?_, ?_⟩
  · intro h1
    simp [parseHeader, h1]
  · intro h1 h2
    simp [parseHeader, h1, h2]
  · intro h1 h2 h3
    simp [parseHeader, h1, h2, h3]

/-- Witness for C6: the three branches at concrete 512-byte headers. -/
theorem header_validation_trichotomy_witness :
    parseHeader (List.replicate 512 0) = .error .invalidOLEFile
    ∧ parseHeader (IDENTIFIER ++ List.replicate 20 0 ++ [0xFF, 0xFE]
        ++ List.replicate 482 0) = .error .notImplementedYet
    ∧ parseHeader (IDENTIFIER ++ List.replicate 20 0 ++ [0xAA, 0xBB]
        ++ List.replicate 482 0) = .error .invalidOLEFile :=
  ⟨(header_validation_trichotomy _ (by decide)).1 (by decide),
   (header_validation_trichotomy _ (by decide)).2.1 (by decide) (by decide),
   (header_validation_trichotomy _ (by decide)).2.2 (by decide) (by decide) (by decide)⟩

/-- C7 counterexample: on a header with valid magic, valid little-endian
marker and valid size exponents but a minimum standard stream size of 0, the
parser fails with `InvalidOLEFile`, not with `BadSizeValue` as the claim
states. -/
theorem stream_cutoff_not_bad_size_value :
    parseHeader (IDENTIFIER ++ List.replicate 20 0 ++ [0xFE, 0xFF]
        ++ [9, 0, 6, 0] ++ List.replicate 478 0) = .error .invalidOLEFile
    ∧ isBadSizeValue (parseHeader (IDENTIFIER ++ List.replicate 20 0
        ++ [0xFE, 0xFF] ++ [9, 0, 6, 0] ++ List.replicate 478 0)) = false :=
  ⟨by decide, by decide⟩

/-- C7 amended: the header parser fails with `BadSizeValue` when the
sector-size exponent or the short-sector-size exponent is at least 16, but a
minimum standard stream size below 4096 fails with `InvalidOLEFile` (not
`BadSizeValue`). -/
theorem header_size_errors (header : List Nat)
    (hlen : header.length = HEADER_SIZE)
    (hmagic : sliceBytes header 0 8 = IDENTIFIER)
    (hendian : sliceBytes header 28 30 = LITTLE_ENDIAN_IDENTIFIER) :
    (16 ≤ fromSliceLE (sliceBytes header 30 32) →
      parseHeader header = .error (.badSizeValue "Overflow on sector\n            size"))
    ∧ (fromSliceLE (sliceBytes header 30 32) < 16 →
        16 ≤ fromSliceLE (sliceBytes header 32 34) →
        parseHeader header = .error (.badSizeValue "Overflow on short sector size"))
    ∧ (fromSliceLE (sliceBytes header 30 32) < 16 →
        fromSliceLE (sliceBytes header 32 34) < 16 →
        fromSliceLE (sliceBytes header 56 60) < 4096 →
        parseHeader header = .error .invalidOLEFile) := by
  have hbig : sliceBytes header 28 30 ≠ BIG_ENDIAN_IDENTIFIER := by
    rw [hendian]; decide
  refine ⟨?_, ?_, ?_⟩
  · intro h1
    simp [parseHeader, hmagic, hendian, hbig, h1,
      LITTLE_ENDIAN_IDENTIFIER, BIG_ENDIAN_IDENTIFIER]
  · intro h1 h2
    have h1' : ¬ 16 ≤ fromSliceLE (sliceBytes header 30 32) := by omega
    simp [parseHeader, hmagic, hendian, hbig, h1', h2,
      LITTLE_ENDIAN_IDENTIFIER, BIG_ENDIAN_IDENTIFIER]
  · intro h1 h2 h3
    have h1' : ¬ 16 ≤ fromSliceLE (sliceBytes header 30 32) := by omega
    have h2' : ¬ 16 ≤ fromSliceLE (sliceBytes header 32 34) := by omega
    simp [parseHeader, hmagic, hendian, hbig, h1', h2', h3,
      LITTLE_ENDIAN_IDENTIFIER, BIG_ENDIAN_IDENTIFIER]

/-- Witness for C7 (amended): the three error branches at concrete
headers. -/
theorem header_size_errors_witness :
    parseHeader (IDENTIFIER ++ List.replicate 20 0 ++ [0xFE, 0xFF]
        ++ [16, 0] ++ List.replicate 480 0)
      = .error (.badSizeValue "Overflow on sector\n            size")
    ∧ parseHeader (IDENTIFIER ++ List.replicate 20 0 ++ [0xFE, 0xFF]
        ++ [9, 0, 16, 0] ++ List.replicate 478 0)
      = .error (.badSizeValue "Overflow on short sector size")
    ∧ parseHeader (IDENTIFIER ++ List.replicate 20 0 ++ [0xFE, 0xFF]
        ++ [9, 0, 6, 0] ++ List.replicate 478 0) = .error .invalidOLEFile :=
  ⟨(header_size_errors _ (by decide) (by decide) (by decide)).1 (by decide),
   (header_size_errors _ (by decide) (by decide) (by decide)).2.1
      (by decide) (by decide),
   (header_size_errors _ (by decide) (by decide) (by decide)).2.2
      (by decide) (by decide) (by decide)⟩

/-- C3: `decode_ptypstring` does not strip trailing NUL code units (despite
the comment in the source saying they are removed), so the round-trip
`decode_ptypstring(encode_utf16le(s) ++ [0,0]) == s` fails: on `s = "Q"`
(code point `0x51`) the decoded string is `"Q\x00"`, not `"Q"`. -/
theorem decode_ptypstring_keeps_trailing_nul :
    decode_ptypstring (encode_utf16le [0x51] ++ [0, 0])
      = .ok (.ptypString [0x51, 0])
    ∧ decode_ptypstring (encode_utf16le [0x51] ++ [0, 0])
      ≠ .ok (.ptypString [0x51]) :=
  ⟨by decide, by decide⟩

/-- C2 counterexample: on the one-entry table `[0]` the walk from sector 0
revisits sector 0; within a budget of 2 steps (exceeding the table size 1) it
has neither terminated at `END_OF_CHAIN` nor reported a malformed-file error
(and it never will: see the amended theorem) - the source loop has no revisit
detection. -/
theorem sat_walk_no_revisit_detection :
    buildChainFromSat [0] 0 2 = .fuelOut
    ∧ buildChainFromSsat [0] 0 2 = .fuelOut :=
  ⟨by decide, by decide⟩

/-- C2 amended: a chain walk that terminates does so at `END_OF_CHAIN` (for
the SSAT also `FREE_SECID`), and a returned chain without revisited sectors
has length at most the table size; but a revisited sector is NOT detected:
on a cyclic chain the walk runs forever (shown on the self-loop table `[0]`,
where it exhausts every step budget) instead of reporting a malformed-file
error. -/
theorem chain_walk_bounds :
    (∀ (sat : List Nat) (start fuel : Nat) (chain : List Nat),
      buildChainFromSat sat start fuel = .ok chain → chain.Nodup →
        chain.length ≤ sat.length)
    ∧ (∀ (ssat : List Nat) (start fuel : Nat) (chain : List Nat),
      buildChainFromSsat ssat start fuel = .ok chain → chain.Nodup →
        chain.length ≤ ssat.length)
    ∧ (∀ fuel, buildChainFromSat [0] 0 fuel = .fuelOut)
    ∧ (∀ fuel, buildChainFromSsat [0] 0 fuel = .fuelOut) := by
  refine ⟨?_, ?_, buildChainFromSat_self_loop, buildChainFromSsat_self_loop⟩
  · intro sat start fuel chain h hnd
    exact nodup_list_lt_length_le hnd
      (fun x hx => (buildChainFromSat_mem sat fuel start chain h x hx).1)
  · intro ssat start fuel chain h hnd
    exact nodup_list_lt_length_le hnd
      (fun x hx => (buildChainFromSsat_mem ssat fuel start chain h x hx).1)

/-- Witness for C2 (amended): the bound at the one-sector table whose entry
is `END_OF_CHAIN`, where the walk returns the chain `[0]`. -/
theorem chain_walk_bounds_witness :
    ([0] : List Nat).length ≤ ([END_OF_CHAIN_SECID_U32] : List Nat).length
    ∧ ([0] : List Nat).length ≤ ([END_OF_CHAIN_SECID_U32] : List Nat).length :=
  ⟨chain_walk_bounds.1 [END_OF_CHAIN_SECID_U32] 0 2 [0] (by decide) (by decide),
   chain_walk_bounds.2.1 [END_OF_CHAIN_SECID_U32] 0 2 [0] (by decide) (by decide)⟩

/-- C5: a `UserStream` whose size is below the minimum standard stream size
has its chain built from the SSAT (whose walks stop on `END_OF_CHAIN` and on
`FREE_SECID`, so neither occurs inside a returned chain); otherwise from the
SAT (whose walks stop only on `END_OF_CHAIN`); the root storage chain is
always built from the SAT. -/
theorem user_stream_chain_dispatch (minStd : Nat) (sat ssat : List Nat)
    (fuel : Nat) (ty : EntryType) (start size : Nat) :
    (ty = .userStream → size < minStd →
      resolveEntryChain minStd sat ssat fuel ty start size
        = buildChainFromSsat ssat start fuel
      ∧ ∀ chain, buildChainFromSsat ssat start fuel = .ok chain →
          ∀ x ∈ chain, x ≠ END_OF_CHAIN_SECID_U32 ∧ x ≠ FREE_SECID_U32)
    ∧ (ty = .userStream → ¬ size < minStd →
      resolveEntryChain minStd sat ssat fuel ty start size
        = buildChainFromSat sat start fuel
      ∧ ∀ chain, buildChainFromSat sat start fuel = .ok chain →
          ∀ x ∈ chain, x ≠ END_OF_CHAIN_SECID_U32)
    ∧ (ty = .rootStorage →
      resolveEntryChain minStd sat ssat fuel ty start size
        = buildChainFromSat sat start fuel) := by
  refine ⟨?_, ?_, ?_⟩
  · rintro rfl hlt
    refine ⟨by simp [resolveEntryChain, hlt], ?_⟩
    intro chain h x hx
    exact ⟨(buildChainFromSsat_mem ssat fuel start chain h x hx).2.1,
           (buildChainFromSsat_mem ssat fuel start chain h x hx).2.2⟩
  · rintro rfl hge
    refine ⟨by simp [resolveEntryChain, hge], ?_⟩
    intro chain h x hx
    exact (buildChainFromSat_mem sat fuel start chain h x hx).2
  · rintro rfl
    simp [resolveEntryChain]

/-- Witness for C5: the three dispatch branches at concrete entries. -/
theorem user_stream_chain_dispatch_witness :
    resolveEntryChain 4096 [] [END_OF_CHAIN_SECID_U32] 2 .userStream 0 10
      = buildChainFromSsat [END_OF_CHAIN_SECID_U32] 0 2
    ∧ resolveEntryChain 4096 [END_OF_CHAIN_SECID_U32] [] 2 .userStream 0 5000
      = buildChainFromSat [END_OF_CHAIN_SECID_U32] 0 2
    ∧ resolveEntryChain 4096 [END_OF_CHAIN_SECID_U32] [] 2 .rootStorage 0 0
      = buildChainFromSat [END_OF_CHAIN_SECID_U32] 0 2 :=
  ⟨((user_stream_chain_dispatch 4096 [] [END_OF_CHAIN_SECID_U32] 2
      .userStream 0 10).1 rfl (by decide)).1,
   ((user_stream_chain_dispatch 4096 [END_OF_CHAIN_SECID_U32] [] 2
      .userStream 0 5000).2.1 rfl (by decide)).1,
   (user_stream_chain_dispatch 4096 [END_OF_CHAIN_SECID_U32] [] 2
      .rootStorage 0 0).2.2 rfl⟩

/-- An entry whose `create_stream` yields `None` contributes nothing to the
`process_streams` loop. -/
theorem processStreamsAux_skip (sm : Nat → Option StorageType)
    (pm : List Char → Option String) (e : PEntry)
    (he : createStream sm pm e = .ok none) :
    ∀ (xs ys : List PEntry) (root : Props) (rmap amap : List (Nat × Props)),
      processStreamsAux sm pm (xs ++ e :: ys) root rmap amap
        = processStreamsAux sm pm (xs ++ ys) root rmap amap := by
  intro xs
  induction xs with
  | nil =>
    intro ys root rmap amap
    simp only [List.nil_append]
    rw [processStreamsAux]
    split
    · rw [he]
    · rfl
  | cons x xs ih =>
    intro ys root rmap amap
    simp only [List.cons_append]
    rw [processStreamsAux, processStreamsAux]
    split
    · split
      · rfl
      · exact ih ys root rmap amap
      · split
        · exact ih ys _ rmap amap
        · exact ih ys root _ amap
        · exact ih ys root rmap _
    · exact ih ys root rmap amap

/-- C9: a `UserStream` whose property id misses the property-id table, or
whose value fails to decode, is silently discarded: `Stream::create` returns
`None`, and `process_streams` on a list holding such an entry equals
`process_streams` without it (processing continues, no error, and the overall
result is unchanged). -/
theorem stream_decode_failures_swallowed :
    (∀ (name : List Char) (buff : List Nat)
       (propMap : List Char → Option String) (parent : StorageType)
       (propId dt : List Char),
      isStreamName name = true →
      extractIdAndDatatype name = some (propId, dt) →
      propMap propId = none →
      streamCreate name buff propMap parent = .ok none)
    ∧ (∀ (name : List Char) (buff : List Nat)
         (propMap : List Char → Option String) (parent : StorageType)
         (propId dt : List Char) (key : String) (err : DataTypeError),
      isStreamName name = true →
      extractIdAndDatatype name = some (propId, dt) →
      propMap propId = some key →
      ptypDecoderDecode buff dt = .error err →
      streamCreate name buff propMap parent = .ok none)
    ∧ (∀ (sm : Nat → Option StorageType) (pm : List Char → Option String)
         (xs ys : List PEntry) (e : PEntry),
      createStream sm pm e = .ok none →
      processStreams sm pm (xs ++ e :: ys) = processStreams sm pm (xs ++ ys)) := by
  refine ⟨?_, ?_, ?_⟩
  · intro name buff propMap parent propId dt h1 h2 h3
    simp [streamCreate, h1, h2, h3]
  · intro name buff propMap parent propId dt key err h1 h2 h3 h4
    simp [streamCreate, h1, h2, h3, h4]
  · intro sm pm xs ys e he
    unfold processStreams
    rw [processStreamsAux_skip sm pm e he xs ys [] [] []]

/-- Witness for C9: an unknown property id, an unknown type code, and the
unchanged overall result, at concrete inputs. -/
theorem stream_decode_failures_swallowed_witness :
    streamCreate ("__substg1.0_3001001F".toList) [] (fun _ => none) .rootEntry
      = .ok none
    ∧ streamCreate ("__substg1.0_30010000".toList) []
        (fun _ => some "DisplayName") .rootEntry = .ok none
    ∧ processStreams (fun _ => some .rootEntry) (fun _ => none)
        ([] ++ PEntry.mk .userStream ("__substg1.0_3001001F".toList)
          (some 0) (some []) :: [])
        = processStreams (fun _ => some .rootEntry) (fun _ => none) ([] ++ []) :=
  ⟨stream_decode_failures_swallowed.1 _ [] (fun _ => none) .rootEntry
      ("0x3001".toList) ("0x001F".toList) (by decide) (by decide) rfl,
   stream_decode_failures_swallowed.2.1 _ [] (fun _ => some "DisplayName")
      .rootEntry ("0x3001".toList) ("0x0000".toList) "DisplayName"
      (.unknownCode ("0x0000".toList)) (by decide) (by decide) rfl (by decide),
   stream_decode_failures_swallowed.2.2 (fun _ => some .rootEntry)
      (fun _ => none) [] []
      (PEntry.mk .userStream ("__substg1.0_3001001F".toList) (some 0) (some []))
      (by decide)⟩

theorem startsWith_self_append (p rest : List Char) :
    startsWith p (p ++ rest) = true := by
  induction p with
  | nil => simp [startsWith]
  | cons c cs ih => simp [startsWith, ih]

theorem startsWith_iff_take (p : List Char) :
    ∀ l, startsWith p l = true ↔ l.take p.length = p := by
  induction p with
  | nil => intro l; simp [startsWith]
  | cons c cs ih =>
    intro l
    cases l with
    | nil => simp [startsWith]
    | cons d ds =>
      simp only [startsWith, List.length_cons, List.take_succ_cons,
        Bool.and_eq_true, decide_eq_true_eq, List.cons.injEq, ih]
      constructor
      · rintro ⟨rfl, h⟩
        exact ⟨rfl, h⟩
      · rintro ⟨rfl, h⟩
        exact ⟨rfl, h⟩

/-- A name formed from the attachment marker is not recognized by the
recipient test. -/
theorem recip_not_match_attach (rest : List Char) :
    startsWith RECIP_MARKER (ATTACH_MARKER ++ rest) = false := by
  rw [Bool.eq_false_iff]
  intro h
  rw [startsWith_iff_take, List.take_append_eq_append_take] at h
  rw [show RECIP_MARKER.length - ATTACH_MARKER.length = 0 from by decide,
    List.take_zero, List.append_nil] at h
  exact absurd h (by decide)

theorem splitHashAux_no_hash :
    ∀ (a acc : List Char), (∀ c ∈ a, c ≠ '#') →
      splitHashAux a acc = [acc.reverse ++ a] := by
  intro a
  induction a with
  | nil => intro acc _; simp [splitHashAux]
  | cons c rest ih =>
    intro acc ha
    have hc : c ≠ '#' := ha c (List.mem_cons_self c rest)
    rw [splitHashAux, if_neg hc,
      ih (c :: acc) (fun d hd => ha d (List.mem_cons_of_mem c hd))]
    simp

theorem splitHashAux_of_hash :
    ∀ (a b acc : List Char), (∀ c ∈ a, c ≠ '#') →
      splitHashAux (a ++ '#' :: b) acc = (acc.reverse ++ a) :: splitHash b := by
  intro a
  induction a with
  | nil =>
    intro b acc _
    simp [splitHashAux, splitHash]
  | cons c rest ih =>
    intro b acc ha
    have hc : c ≠ '#' := ha c (List.mem_cons_self c rest)
    rw [List.cons_append, splitHashAux, if_neg hc,
      ih b (c :: acc) (fun d hd => ha d (List.mem_cons_of_mem c hd))]
    simp

theorem hexDigitVal_ne_hash {c : Char} {v : Nat}
    (h : hexDigitVal? c = some v) : c ≠ '#' := by
  rintro rfl
  rw [(by decide : hexDigitVal? '#' = none)] at h
  exact Option.noConfusion h

theorem convertLoop_four (b0 b1 b2 b3 : Nat) :
    convertLoop [b3, b2, b1, b0] 1 0
      = b3 + 256 * b2 + 65536 * b1 + 16777216 * b0 := by
  simp [convertLoop, U32_MAX]
  ring

/-- `convert_id_to_u32` on exactly eight hex digits computes the MSB-first
value of the digits. -/
theorem convertIdToU32_hex8 {c0 c1 c2 c3 c4 c5 c6 c7 : Char}
    {v0 v1 v2 v3 v4 v5 v6 v7 : Nat}
    (h0 : hexDigitVal? c0 = some v0) (h1 : hexDigitVal? c1 = some v1)
    (h2 : hexDigitVal? c2 = some v2) (h3 : hexDigitVal? c3 = some v3)
    (h4 : hexDigitVal? c4 = some v4) (h5 : hexDigitVal? c5 = some v5)
    (h6 : hexDigitVal? c6 = some v6) (h7 : hexDigitVal? c7 = some v7) :
    convertIdToU32 [c0, c1, c2, c3, c4, c5, c6, c7]
      = some (parseHexBE [v0, v1, v2, v3, v4, v5, v6, v7]) := by
  rw [convertIdToU32, if_neg (by simp)]
  rw [show hexDecode [c0, c1, c2, c3, c4, c5, c6, c7]
      = some [16 * v0 + v1, 16 * v2 + v3, 16 * v4 + v5, 16 * v6 + v7] from by
    simp [hexDecode, h0, h1, h2, h3, h4, h5, h6, h7]]
  simp only [Option.some.injEq, List.reverse_cons, List.reverse_nil,
    List.nil_append, List.cons_append, List.singleton_append]
  rw [convertLoop_four (16 * v0 + v1) (16 * v2 + v3) (16 * v4 + v5)
    (16 * v6 + v7)]
  simp [parseHexBE]
  ring

theorem storageTypeCreate_ne_rootEntry (name : List Char) :
    storageTypeCreate name ≠ .ok (some .rootEntry) := by
  unfold storageTypeCreate
  split
  · cases h1 : (splitHash name)[1]? with
    | none => simp
    | some id => cases h2 : convertIdToU32 id <;> simp [h2]
  · split
    · cases h1 : (splitHash name)[1]? with
      | none => simp
      | some id => cases h2 : convertIdToU32 id <;> simp [h2]
    · simp

/-- Only a `RootStorage` entry classifies as `RootEntry`. -/
theorem classifyEntry_root_iff (e : SEntry) :
    classifyEntry e = .ok (some .rootEntry) ↔ e.entryType = .rootStorage := by
  rcases e with ⟨eid, ety, ename⟩
  cases ety <;>
    simp [classifyEntry, storageTypeCreate_ne_rootEntry]

theorem entryStorageMapFrom_untouched :
    ∀ (es : List SEntry) (m m' : Nat → Option StorageType) (id : Nat),
      entryStorageMapFrom m es = .ok m' → (∀ e ∈ es, e.id ≠ id) →
      m' id = m id := by
  intro es
  induction es with
  | nil =>
    intro m m' id h _
    simp only [entryStorageMapFrom, Except.ok.injEq] at h
    subst h
    rfl
  | cons e rest ih =>
    intro m m' id h hne
    have hne_head : e.id ≠ id := hne e (List.mem_cons_self e rest)
    have hne_rest : ∀ x ∈ rest, x.id ≠ id :=
      fun x hx => hne x (List.mem_cons_of_mem e hx)
    rw [entryStorageMapFrom] at h
    split at h
    · exact absurd h (by simp)
    · exact ih _ _ _ h hne_rest
    · rw [ih _ _ _ h hne_rest]
      simp [mapInsert, hne_head.symm]

theorem entryStorageMapFrom_rootEntry :
    ∀ (es : List SEntry) (m m' : Nat → Option StorageType),
      entryStorageMapFrom m es = .ok m' →
      (es.map SEntry.id).Nodup →
      ∀ id, (∀ e ∈ es, m e.id = none) →
      (m' id = some .rootEntry ↔
        (∃ e ∈ es, e.id = id ∧ e.entryType = .rootStorage)
          ∨ m id = some .rootEntry) := by
  intro es
  induction es with
  | nil =>
    intro m m' h _ id _
    simp only [entryStorageMapFrom, Except.ok.injEq] at h
    subst h
    simp
  | cons e rest ih =>
    intro m m' h hnd id hnone
    rw [List.map_cons, List.nodup_cons] at hnd
    obtain ⟨hid_not, hnd_rest⟩ := hnd
    have hnone_head : m e.id = none := hnone e (List.mem_cons_self e rest)
    have hnone_rest : ∀ x ∈ rest, m x.id = none :=
      fun x hx => hnone x (List.mem_cons_of_mem e hx)
    have hne_rest : ∀ x ∈ rest, x.id ≠ e.id := by
      intro x hx hcontra
      exact hid_not (hcontra ▸ List.mem_map_of_mem SEntry.id hx)
    rw [entryStorageMapFrom] at h
    split at h
    · exact absurd h (by simp)
    · rename_i hce
      rw [ih _ _ h hnd_rest id hnone_rest]
      have hty : e.entryType ≠ .rootStorage := by
        intro hcontra
        rw [(classifyEntry_root_iff e).mpr hcontra] at hce
        exact absurd hce (by simp)
      constructor
      · rintro (⟨x, hx, hxid, hxty⟩ | hmy)
        · exact Or.inl ⟨x, List.mem_cons_of_mem e hx, hxid, hxty⟩
        · exact Or.inr hmy
      · rintro (⟨x, hx, hxid, hxty⟩ | hmy)
        · rcases List.mem_cons.mp hx with rfl | hx2
          · exact absurd hxty hty
          · exact Or.inl ⟨x, hx2, hxid, hxty⟩
        · exact Or.inr hmy
    · rename_i st hce
      have hupd : ∀ x ∈ rest, mapInsert m e.id st x.id = none := by
        intro x hx
        simp [mapInsert, hne_rest x hx, hnone_rest x hx]
      rw [ih _ _ h hnd_rest id hupd]
      by_cases hcase : id = e.id
      · subst hcase
        constructor
        · rintro (⟨x, hx, hxid, hxty⟩ | hmy)
          · exact absurd hxid (hne_rest x hx)
          · rw [show mapInsert m e.id st e.id = some st from by simp [mapInsert]]
              at hmy
            have hst : st = .rootEntry := by
              simpa using hmy
            have hroot : e.entryType = .rootStorage :=
              (classifyEntry_root_iff e).mp (hst ▸ hce)
            exact Or.inl ⟨e, List.mem_cons_self e rest, rfl, hroot⟩
        · rintro (⟨x, hx, hxid, hxty⟩ | hmy)
          · rcases List.mem_cons.mp hx with rfl | hx2
            · have hst : st = .rootEntry := by
                have hcl := (classifyEntry_root_iff x).mpr hxty
                rw [hce] at hcl
                simpa using hcl
              refine Or.inr ?_
              simp [mapInsert, hst]
            · exact absurd hxid (hne_rest x hx2)
          · rw [hnone_head] at hmy
            exact absurd hmy (by simp)
      · constructor
        · rintro (⟨x, hx, hxid, hxty⟩ | hmy)
          · exact Or.inl ⟨x, List.mem_cons_of_mem e hx, hxid, hxty⟩
          · rw [show mapInsert m e.id st id = m id from by
                simp [mapInsert, hcase]] at hmy
            exact Or.inr hmy
        · rintro (⟨x, hx, hxid, hxty⟩ | hmy)
          · rcases List.mem_cons.mp hx with rfl | hx2
            · exact absurd hxid.symm hcase
            · exact Or.inl ⟨x, hx2, hxid, hxty⟩
          · rw [show mapInsert m e.id st id = m id from by
              simp [mapInsert, hcase]]
            exact Or.inr hmy

/-- C8: a `UserStorage` named `__recip_version1.0_#` followed by eight hex
digits classifies as `Recipient(n)` where `n` is the MSB-first (big-endian)
value of the digits; one named `__attach_version1.0_#` plus eight hex digits
as `Attachment(n)`; and in the map built by `EntryStorageMap::new` over
entries with distinct ids, an id maps to `RootEntry` exactly when its entry
is a `RootStorage`. -/
theorem storage_classification :
    (∀ (c0 c1 c2 c3 c4 c5 c6 c7 : Char) (v0 v1 v2 v3 v4 v5 v6 v7 : Nat),
      hexDigitVal? c0 = some v0 → hexDigitVal? c1 = some v1 →
      hexDigitVal? c2 = some v2 → hexDigitVal? c3 = some v3 →
      hexDigitVal? c4 = some v4 → hexDigitVal? c5 = some v5 →
      hexDigitVal? c6 = some v6 → hexDigitVal? c7 = some v7 →
      storageTypeCreate (RECIP_MARKER ++ '#' :: [c0, c1, c2, c3, c4, c5, c6, c7])
        = .ok (some (.recipient (parseHexBE [v0, v1, v2, v3, v4, v5, v6, v7]))))
    ∧ (∀ (c0 c1 c2 c3 c4 c5 c6 c7 : Char) (v0 v1 v2 v3 v4 v5 v6 v7 : Nat),
      hexDigitVal? c0 = some v0 → hexDigitVal? c1 = some v1 →
      hexDigitVal? c2 = some v2 → hexDigitVal? c3 = some v3 →
      hexDigitVal? c4 = some v4 → hexDigitVal? c5 = some v5 →
      hexDigitVal? c6 = some v6 → hexDigitVal? c7 = some v7 →
      storageTypeCreate (ATTACH_MARKER ++ '#' :: [c0, c1, c2, c3, c4, c5, c6, c7])
        = .ok (some (.attachment (parseHexBE [v0, v1, v2, v3, v4, v5, v6, v7]))))
    ∧ (∀ (es : List SEntry) (m : Nat → Option StorageType) (id : Nat),
      entryStorageMap es = .ok m → (es.map SEntry.id).Nodup →
      (m id = some .rootEntry ↔
        ∃ e ∈ es, e.id = id ∧ e.entryType = .rootStorage)) := by
  have no_hash_recip : ∀ c ∈ RECIP_MARKER, c ≠ '#' := by decide
  have no_hash_attach : ∀ c ∈ ATTACH_MARKER, c ≠ '#' := by decide
  refine ⟨?_, ?_, ?_⟩
  · intro c0 c1 c2 c3 c4 c5 c6 c7 v0 v1 v2 v3 v4 v5 v6 v7 h0 h1 h2 h3 h4 h5 h6 h7
    have hdig : ∀ c ∈ [c0, c1, c2, c3, c4, c5, c6, c7], c ≠ '#' := by
      intro c hc
      simp only [List.mem_cons, List.not_mem_nil, or_false] at hc
      rcases hc with rfl | rfl | rfl | rfl | rfl | rfl | rfl | rfl
      exacts [hexDigitVal_ne_hash h0, hexDigitVal_ne_hash h1,
        hexDigitVal_ne_hash h2, hexDigitVal_ne_hash h3,
        hexDigitVal_ne_hash h4, hexDigitVal_ne_hash h5,
        hexDigitVal_ne_hash h6, hexDigitVal_ne_hash h7]
    have hsplit : splitHash (RECIP_MARKER ++ '#' :: [c0, c1, c2, c3, c4, c5, c6, c7])
        = [RECIP_MARKER, [c0, c1, c2, c3, c4, c5, c6, c7]] := by
      rw [splitHash, splitHashAux_of_hash _ _ _ no_hash_recip,
        splitHash, splitHashAux_no_hash _ _ hdig]
      simp
    rw [storageTypeCreate, if_pos (startsWith_self_append _ _), hsplit]
    rw [show ([RECIP_MARKER, [c0, c1, c2, c3, c4, c5, c6, c7]] :
        List (List Char))[1]? = some [c0, c1, c2, c3, c4, c5, c6, c7] from rfl]
    simp only [convertIdToU32_hex8 h0 h1 h2 h3 h4 h5 h6 h7]
  · intro c0 c1 c2 c3 c4 c5 c6 c7 v0 v1 v2 v3 v4 v5 v6 v7 h0 h1 h2 h3 h4 h5 h6 h7
    have hdig : ∀ c ∈ [c0, c1, c2, c3, c4, c5, c6, c7], c ≠ '#' := by
      intro c hc
      simp only [List.mem_cons, List.not_mem_nil, or_false] at hc
      rcases hc with rfl | rfl | rfl | rfl | rfl | rfl | rfl | rfl
      exacts [hexDigitVal_ne_hash h0, hexDigitVal_ne_hash h1,
        hexDigitVal_ne_hash h2, hexDigitVal_ne_hash h3,
        hexDigitVal_ne_hash h4, hexDigitVal_ne_hash h5,
        hexDigitVal_ne_hash h6, hexDigitVal_ne_hash h7]
    have hsplit : splitHash (ATTACH_MARKER ++ '#' :: [c0, c1, c2, c3, c4, c5, c6, c7])
        = [ATTACH_MARKER, [c0, c1, c2, c3, c4, c5, c6, c7]] := by
      rw [splitHash, splitHashAux_of_hash _ _ _ no_hash_attach,
        splitHash, splitHashAux_no_hash _ _ hdig]
      simp
    rw [storageTypeCreate, if_neg (by rw [recip_not_match_attach]; simp),
      if_pos (startsWith_self_append _ _), hsplit]
    rw [show ([ATTACH_MARKER, [c0, c1, c2, c3, c4, c5, c6, c7]] :
        List (List Char))[1]? = some [c0, c1, c2, c3, c4, c5, c6, c7] from rfl]
    simp only [convertIdToU32_hex8 h0 h1 h2 h3 h4 h5 h6 h7]
  · intro es m id h hnd
    rw [entryStorageMap] at h
    have hiff := entryStorageMapFrom_rootEntry es _ _ h hnd id (fun e _ => rfl)
    simpa using hiff

/-- Witness for C8: the three classification facts at concrete names and a
concrete two-entry directory. -/
theorem storage_classification_witness :
    storageTypeCreate (RECIP_MARKER ++ '#' :: ['0', '0', '0', '0', '0', '0', '0', 'A'])
      = .ok (some (.recipient (parseHexBE [0, 0, 0, 0, 0, 0, 0, 10])))
    ∧ storageTypeCreate (ATTACH_MARKER ++ '#' :: ['0', '0', '0', '0', '0', '0', '1', '0'])
      = .ok (some (.attachment (parseHexBE [0, 0, 0, 0, 0, 0, 1, 0])))
    ∧ (mapInsert (fun _ => none) 0 .rootEntry 0 = some .rootEntry ↔
        ∃ e ∈ [SEntry.mk 0 .rootStorage [], SEntry.mk 1 .userStorage []],
          e.id = 0 ∧ e.entryType = .rootStorage) :=
  ⟨storage_classification.1 '0' '0' '0' '0' '0' '0' '0' 'A' 0 0 0 0 0 0 0 10
      (by decide) (by decide) (by decide) (by decide) (by decide) (by decide)
      (by decide) (by decide),
   storage_classification.2.1 '0' '0' '0' '0' '0' '0' '1' '0' 0 0 0 0 0 0 1 0
      (by decide) (by decide) (by decide) (by decide) (by decide) (by decide)
      (by decide) (by decide),
   storage_classification.2.2
      [SEntry.mk 0 .rootStorage [], SEntry.mk 1 .userStorage []]
      (mapInsert (fun _ => none) 0 .rootEntry) 0 rfl (by decide)⟩

/-- Updating an entry in place while keeping its type and root pointer
preserves `goodRoots`. -/
theorem goodRoots_set {entries : List TreeEntry} (hg : goodRoots entries)
    {i : Nat} {e e' : TreeEntry} (hi : entries[i]? = some e)
    (hty : e'.entryType = e.entryType) (hroot : e'.rootNode = e.rootNode) :
    goodRoots (entries.set i e') := by
  intro x hx hstorage
  rw [List.length_set]
  rcases List.mem_or_eq_of_mem_set hx with hx' | rfl
  · exact hg x hx' hstorage
  · rw [hroot]
    exact hg e (List.getElem?_mem hi) (by rwa [hty] at hstorage)

theorem registerChild_ok (entries : List TreeEntry) (parentId : Option Nat)
    (id : Nat) (hg : goodRoots entries)
    (hp : parentId = none ∨ ∃ p, parentId = some p ∧ p < entries.length) :
    ∃ out, registerChild entries parentId id = .ok out
      ∧ out.length = entries.length ∧ goodRoots out := by
  rcases hp with rfl | ⟨p, rfl, hplt⟩
  · exact ⟨entries, rfl, rfl, hg⟩
  · have hgp : entries[p]? = some entries[p] := List.getElem?_eq_getElem hplt
    refine ⟨entries.set p
      { entries[p] with childrenNodes := entries[p].childrenNodes ++ [id] },
      ?_, by simp, goodRoots_set hg hgp rfl rfl⟩
    simp only [registerChild, hgp]

/-- As long as every storage node points at `FREE_SECID` or inside the table,
`build_entry_tree` never indexes out of range (and it preserves the table
length and that discipline). -/
theorem buildEntryTree_safe :
    ∀ (fuel id : Nat) (parentId : Option Nat) (entries : List TreeEntry),
      goodRoots entries →
      (id = FREE_SECID_U32 ∨ id < entries.length) →
      (parentId = none ∨ ∃ p, parentId = some p ∧ p < entries.length) →
      buildEntryTree fuel id parentId entries ≠ .error .panicOOB
      ∧ ∀ out, buildEntryTree fuel id parentId entries = .ok out →
          out.length = entries.length ∧ goodRoots out := by
  intro fuel
  induction fuel with
  | zero =>
    intro id parentId entries _ _ _
    refine ⟨by simp [buildEntryTree], ?_⟩
    intro out h
    simp [buildEntryTree] at h
  | succ n ih =>
    intro id parentId entries hg hid hp
    rw [buildEntryTree]
    by_cases hfree : id = FREE_SECID_U32
    · rw [if_pos hfree]
      refine ⟨by simp, ?_⟩
      intro out h
      rw [Except.ok.injEq] at h
      subst h
      exact ⟨rfl, hg⟩
    · rw [if_neg hfree]
      have hlt : id < entries.length := hid.resolve_left hfree
      have hgetid : entries[id]? = some entries[id] := List.getElem?_eq_getElem hlt
      simp only [hgetid]
      have hgA : goodRoots (entries.set id { entries[id] with parentNode := parentId }) :=
        goodRoots_set hg hgetid rfl rfl
      have hpA : parentId = none
          ∨ ∃ p, parentId = some p
              ∧ p < (entries.set id { entries[id] with parentNode := parentId }).length := by
        rcases hp with rfl | ⟨p, rfl, hplt⟩
        · exact Or.inl rfl
        · exact Or.inr ⟨p, rfl, by simpa using hplt⟩
      obtain ⟨entriesB, hB, hBlen, hBgood⟩ :=
        registerChild_ok _ parentId id hgA hpA
      simp only [hB]
      have hBlen' : entriesB.length = entries.length := by simpa using hBlen
      have hltB : id < entriesB.length := hBlen' ▸ hlt
      have hgetidB : entriesB[id]? = some entriesB[id] := List.getElem?_eq_getElem hltB
      simp only [hgetidB]
      have hpB : parentId = none ∨ ∃ p, parentId = some p ∧ p < entriesB.length := by
        rcases hp with rfl | ⟨p, rfl, hplt⟩
        · exact Or.inl rfl
        · exact Or.inr ⟨p, rfl, hBlen' ▸ hplt⟩
      -- the root-child recursion
      by_cases hstor : entriesB[id].entryType = .rootStorage
          ∨ entriesB[id].entryType = .userStorage
      · rw [if_pos hstor]
        have hrootrange : entriesB[id].rootNode = FREE_SECID_U32
            ∨ entriesB[id].rootNode < entriesB.length :=
          hBgood entriesB[id] (List.getElem?_mem hgetidB) hstor
        have ihroot := ih entriesB[id].rootNode (some id) entriesB hBgood hrootrange
          (Or.inr ⟨id, rfl, hltB⟩)
        cases hrec : buildEntryTree n entriesB[id].rootNode (some id) entriesB with
        | error err =>
          dsimp only
          have herr : err ≠ .panicOOB := by
            intro hcontra
            exact ihroot.1 (hcontra ▸ hrec)
          refine ⟨by simpa using herr, ?_⟩
          intro out h
          exact absurd h (by simp)
        | ok entriesC =>
          dsimp only
          obtain ⟨hClen, hCgood⟩ := ihroot.2 entriesC hrec
          have hClen' : entriesC.length = entries.length := hBlen' ▸ hClen
          have hltC : id < entriesC.length := hClen' ▸ hlt
          have hgetidC : entriesC[id]? = some entriesC[id] := List.getElem?_eq_getElem hltC
          simp only [hgetidC]
          have hpC : parentId = none ∨ ∃ p, parentId = some p ∧ p < entriesC.length := by
            rcases hp with rfl | ⟨p, rfl, hplt⟩
            · exact Or.inl rfl
            · exact Or.inr ⟨p, rfl, hClen' ▸ hplt⟩
          by_cases hleft : entriesC[id].leftChildNode < entriesC.length
          · rw [if_pos hleft]
            have ihleft := ih entriesC[id].leftChildNode parentId entriesC hCgood
              (Or.inr hleft) hpC
            cases hrecL : buildEntryTree n entriesC[id].leftChildNode parentId entriesC with
            | error err =>
              dsimp only
              have herr : err ≠ .panicOOB := by
                intro hcontra
                exact ihleft.1 (hcontra ▸ hrecL)
              refine ⟨by simpa using herr, ?_⟩
              intro out h
              exact absurd h (by simp)
            | ok entriesD =>
              dsimp only
              obtain ⟨hDlen, hDgood⟩ := ihleft.2 entriesD hrecL
              have hDlen' : entriesD.length = entries.length := hClen' ▸ hDlen
              by_cases hright : entriesC[id].rightChildNode < entriesC.length
              · rw [if_pos hright]
                have hpD : parentId = none
                    ∨ ∃ p, parentId = some p ∧ p < entriesD.length := by
                  rcases hp with rfl | ⟨p, rfl, hplt⟩
                  · exact Or.inl rfl
                  · exact Or.inr ⟨p, rfl, hDlen' ▸ hplt⟩
                have ihright := ih entriesC[id].rightChildNode parentId entriesD hDgood
                  (Or.inr (by omega)) hpD
                refine ⟨ihright.1, ?_⟩
                intro out h
                obtain ⟨holen, hogood⟩ := ihright.2 out h
                exact ⟨hDlen' ▸ holen, hogood⟩
              · rw [if_neg hright]
                refine ⟨by simp, ?_⟩
                intro out h
                rw [Except.ok.injEq] at h
                subst h
                exact ⟨hDlen', hDgood⟩
          · rw [if_neg hleft]
            dsimp only
            by_cases hright : entriesC[id].rightChildNode < entriesC.length
            · rw [if_pos hright]
              have ihright := ih entriesC[id].rightChildNode parentId entriesC hCgood
                (Or.inr hright) hpC
              refine ⟨ihright.1, ?_⟩
              intro out h
              obtain ⟨holen, hogood⟩ := ihright.2 out h
              exact ⟨hClen' ▸ holen, hogood⟩
            · rw [if_neg hright]
              refine ⟨by simp, ?_⟩
              intro out h
              rw [Except.ok.injEq] at h
              subst h
              exact ⟨hClen', hCgood⟩
      · rw [if_neg hstor]
        simp only [hgetidB]
        by_cases hleft : entriesB[id].leftChildNode < entriesB.length
        · rw [if_pos hleft]
          have ihleft := ih entriesB[id].leftChildNode parentId entriesB hBgood
            (Or.inr hleft) hpB
          cases hrecL : buildEntryTree n entriesB[id].leftChildNode parentId entriesB with
          | error err =>
            dsimp only
            have herr : err ≠ .panicOOB := by
              intro hcontra
              exact ihleft.1 (hcontra ▸ hrecL)
            refine ⟨by simpa using herr, ?_⟩
            intro out h
            exact absurd h (by simp)
          | ok entriesD =>
            dsimp only
            obtain ⟨hDlen, hDgood⟩ := ihleft.2 entriesD hrecL
            have hDlen' : entriesD.length = entries.length := hBlen' ▸ hDlen
            by_cases hright : entriesB[id].rightChildNode < entriesB.length
            · rw [if_pos hright]
              have hpD : parentId = none
                  ∨ ∃ p, parentId = some p ∧ p < entriesD.length := by
                rcases hp with rfl | ⟨p, rfl, hplt⟩
                · exact Or.inl rfl
                · exact Or.inr ⟨p, rfl, hDlen' ▸ hplt⟩
              have ihright := ih entriesB[id].rightChildNode parentId entriesD hDgood
                (Or.inr (by omega)) hpD
              refine ⟨ihright.1, ?_⟩
              intro out h
              obtain ⟨holen, hogood⟩ := ihright.2 out h
              exact ⟨hDlen' ▸ holen, hogood⟩
            · rw [if_neg hright]
              refine ⟨by simp, ?_⟩
              intro out h
              rw [Except.ok.injEq] at h
              subst h
              exact ⟨hDlen', hDgood⟩
        · rw [if_neg hleft]
          dsimp only
          by_cases hright : entriesB[id].rightChildNode < entriesB.length
          · rw [if_pos hright]
            have ihright := ih entriesB[id].rightChildNode parentId entriesB hBgood
              (Or.inr hright) hpB
            refine ⟨ihright.1, ?_⟩
            intro out h
            obtain ⟨holen, hogood⟩ := ihright.2 out h
            exact ⟨hBlen' ▸ holen, hogood⟩
          · rw [if_neg hright]
            refine ⟨by simp, ?_⟩
            intro out h
            rw [Except.ok.injEq] at h
            subst h
            exact ⟨hBlen', hBgood⟩

/-- C4 counterexample: a single-entry directory whose storage carries the
out-of-range root child 5 (not `FREE_SECID`): `build_entry_tree` recurses
into 5 without a range check and indexes the entries array out of bounds (a
panic), so the claim that an out-of-range child pointer is never used to
index the array fails. -/
theorem root_child_out_of_range_panics :
    buildEntryTree 2 0 none
      [TreeEntry.mk .userStorage FREE_SECID_U32 FREE_SECID_U32 5 none []]
      = .error .panicOOB := by
  decide

/-- C4 amended: the recursion stops at `FREE_SECID`, and left/right sibling
pointers are range-checked before recursing; but a storage's root child is
recursed into guarded only by the `FREE_SECID` test, so an out-of-range root
child is used to index the entries array (see the counterexample).  Provided
every storage's root child is `FREE_SECID` or in range - and the start index
and parent are in range - no out-of-range index is ever used. -/
theorem entry_tree_range_discipline (fuel id : Nat) (parentId : Option Nat)
    (entries : List TreeEntry) (hg : goodRoots entries)
    (hid : id = FREE_SECID_U32 ∨ id < entries.length)
    (hp : parentId = none ∨ ∃ p, parentId = some p ∧ p < entries.length) :
    buildEntryTree fuel id parentId entries ≠ .error .panicOOB :=
  (buildEntryTree_safe fuel id parentId entries hg hid hp).1

/-- Witness for C4 (amended): no index panic on a one-storage directory whose
root child is `FREE_SECID`. -/
theorem entry_tree_range_discipline_witness :
    buildEntryTree 3 0 none
      [TreeEntry.mk .userStorage FREE_SECID_U32 FREE_SECID_U32 FREE_SECID_U32
        none []]
      ≠ .error .panicOOB :=
  entry_tree_range_discipline 3 0 none _ (by decide) (Or.inr (by decide))
    (Or.inl rfl)

/-- Unpack a chunk-length description given as a `map`-equality: the chunk
count and the length of each chunk. -/
theorem shape_of_map_eq {chunks : List (List Nat)} {cs size n : Nat}
    (hmap : chunks.map List.length
      = (List.range n).map (fun j => min cs (size - j * cs))) :
    chunks.length = n
    ∧ ∀ k chunk, chunks[k]? = some chunk →
        chunk.length = min cs (size - k * cs) := by
  have hlen : chunks.length = n := by
    have := congrArg List.length hmap
    simpa using this
  refine ⟨hlen, ?_⟩
  intro k chunk hk
  have hklt : k < chunks.length := (List.getElem?_eq_some.mp hk).1
  have h1 : (chunks.map List.length)[k]? = some chunk.length := by
    rw [List.getElem?_map, hk]
    rfl
  rw [hmap, List.getElem?_map, List.getElem?_range (hlen ▸ hklt)] at h1
  simpa using h1.symm

theorem getStreamSlicesAux_ok (secSize : Nat) (body : List Nat) (size : Nat) :
    ∀ (chain : List Nat) (i : Nat) (es : EntrySlice),
      (∀ s ∈ chain, secSize * s + secSize ≤ body.length) →
      es.chunks.map List.length
        = (List.range i).map (fun j => min secSize (size - j * secSize)) →
      ∃ es', getStreamSlicesAux secSize body size chain
          (min (i * secSize) size) es = .ok es'
        ∧ es'.chunks.map List.length
            = (List.range (i + chain.length)).map
                (fun j => min secSize (size - j * secSize))
        ∧ es'.maxChunkSize = es.maxChunkSize
        ∧ es'.totalSize = es.totalSize
        ∧ es'.read = es.read := by
  intro chain
  induction chain with
  | nil =>
    intro i es _ hmap
    exact ⟨es, rfl, by simpa using hmap, rfl, rfl, rfl⟩
  | cons s rest ih =>
    intro i es hs hmap
    have hbody : secSize * s + secSize ≤ body.length :=
      hs s (List.mem_cons_self _ _)
    have hread : readSector secSize body s
        = .ok ((body.drop (secSize * s)).take secSize) := by
      rw [readSector, if_pos hbody]
    rw [getStreamSlicesAux]
    simp only [hread]
    have hseclen : ((body.drop (secSize * s)).take secSize).length = secSize := by
      simp only [List.length_take, List.length_drop]
      omega
    have hsub : size - min (i * secSize) size = size - i * secSize := by omega
    have hchunklen :
        (((body.drop (secSize * s)).take secSize).take
          (min secSize (size - min (i * secSize) size))).length
          = min secSize (size - i * secSize) := by
      rw [List.length_take, hseclen, hsub]
      omega
    have hnext : min (i * secSize) size
        + min secSize (size - min (i * secSize) size)
        = min ((i + 1) * secSize) size := by
      have hmul : (i + 1) * secSize = i * secSize + secSize := Nat.succ_mul i secSize
      omega
    rw [hnext]
    obtain ⟨es', heq, hmap', hmax, htot, hrd⟩ := ih (i + 1)
      (addChunk es (((body.drop (secSize * s)).take secSize).take
        (min secSize (size - min (i * secSize) size))))
      (fun x hx => hs x (List.mem_cons_of_mem _ hx))
      (by
        simp only [addChunk, List.map_append, List.map_cons, List.map_nil,
          hmap, List.range_succ]
        rw [hchunklen])
    refine ⟨es', heq, ?_, hmax, htot, hrd⟩
    rw [show i + (s :: rest).length = i + 1 + rest.length from by simp; omega]
    exact hmap'

theorem getShortStreamSlicesAux_ok (ssectorSize secSize : Nat)
    (body rootChain : List Nat) (size : Nat)
    (hss : 0 < ssectorSize) (hle : ssectorSize ≤ secSize) :
    ∀ (chain : List Nat) (i : Nat) (es : EntrySlice),
      (∀ m ∈ chain, ∃ r, rootChain[m / (secSize / ssectorSize)]? = some r
          ∧ secSize * r + secSize ≤ body.length) →
      es.chunks.map List.length
        = (List.range i).map (fun j => min ssectorSize (size - j * ssectorSize)) →
      ∃ es', getShortStreamSlicesAux ssectorSize secSize body rootChain size
          (secSize / ssectorSize) chain (min (i * ssectorSize) size) es = .ok es'
        ∧ es'.chunks.map List.length
            = (List.range (i + chain.length)).map
                (fun j => min ssectorSize (size - j * ssectorSize))
        ∧ es'.maxChunkSize = es.maxChunkSize
        ∧ es'.totalSize = es.totalSize
        ∧ es'.read = es.read := by
  have hnper : 0 < secSize / ssectorSize := Nat.div_pos hle hss
  intro chain
  induction chain with
  | nil =>
    intro i es _ hmap
    exact ⟨es, rfl, by simpa using hmap, rfl, rfl, rfl⟩
  | cons m rest ih =>
    intro i es hs hmap
    obtain ⟨r, hr, hbody⟩ := hs m (List.mem_cons_self _ _)
    have hread : readSector secSize body r
        = .ok ((body.drop (secSize * r)).take secSize) := by
      rw [readSector, if_pos hbody]
    rw [getShortStreamSlicesAux, if_neg (by omega : ¬ secSize / ssectorSize = 0)]
    simp only [hr, hread]
    have hseclen : ((body.drop (secSize * r)).take secSize).length = secSize := by
      simp only [List.length_take, List.length_drop]
      omega
    have hmod : m % (secSize / ssectorSize) < secSize / ssectorSize :=
      Nat.mod_lt _ hnper
    have hstart : (m % (secSize / ssectorSize)) * ssectorSize + ssectorSize
        ≤ secSize := by
      have h1 : (m % (secSize / ssectorSize) + 1) * ssectorSize
          ≤ (secSize / ssectorSize) * ssectorSize :=
        Nat.mul_le_mul_right _ hmod
      have h2 : (secSize / ssectorSize) * ssectorSize ≤ secSize :=
        Nat.div_mul_le_self _ _
      have h3 : (m % (secSize / ssectorSize) + 1) * ssectorSize
          = (m % (secSize / ssectorSize)) * ssectorSize + ssectorSize :=
        Nat.succ_mul _ _
      omega
    have hguard : (m % (secSize / ssectorSize)) * ssectorSize
        + min ssectorSize (size - min (i * ssectorSize) size)
        ≤ ((body.drop (secSize * r)).take secSize).length := by
      rw [hseclen]
      omega
    rw [if_pos hguard]
    have hsub : size - min (i * ssectorSize) size = size - i * ssectorSize := by
      omega
    have harg : (m % (secSize / ssectorSize)) * ssectorSize
        + min ssectorSize (size - min (i * ssectorSize) size)
        - (m % (secSize / ssectorSize)) * ssectorSize
        = min ssectorSize (size - i * ssectorSize) := by omega
    have hchunklen :
        ((((body.drop (secSize * r)).take secSize).drop
            ((m % (secSize / ssectorSize)) * ssectorSize)).take
          ((m % (secSize / ssectorSize)) * ssectorSize
            + min ssectorSize (size - min (i * ssectorSize) size)
            - (m % (secSize / ssectorSize)) * ssectorSize)).length
          = min ssectorSize (size - i * ssectorSize) := by
      rw [List.length_take, List.length_drop, hseclen, harg]
      omega
    have hnext : min (i * ssectorSize) size
        + ((m % (secSize / ssectorSize)) * ssectorSize
          + min ssectorSize (size - min (i * ssectorSize) size)
          - (m % (secSize / ssectorSize)) * ssectorSize)
        = min ((i + 1) * ssectorSize) size := by
      have hmul : (i + 1) * ssectorSize = i * ssectorSize + ssectorSize :=
        Nat.succ_mul i ssectorSize
      omega
    rw [hnext]
    obtain ⟨es', heq, hmap', hmax, htot, hrd⟩ := ih (i + 1)
      (addChunk es ((((body.drop (secSize * r)).take secSize).drop
          ((m % (secSize / ssectorSize)) * ssectorSize)).take
        ((m % (secSize / ssectorSize)) * ssectorSize
          + min ssectorSize (size - min (i * ssectorSize) size)
          - (m % (secSize / ssectorSize)) * ssectorSize)))
      (fun x hx => hs x (List.mem_cons_of_mem _ hx))
      (by
        simp only [addChunk, List.map_append, List.map_cons, List.map_nil,
          hmap, List.range_succ]
        rw [hchunklen])
    refine ⟨es', heq, ?_, hmax, htot, hrd⟩
    rw [show i + (m :: rest).length = i + 1 + rest.length from by simp; omega]
    exact hmap'

/-- The `EntrySlice::read` loop reads everything when the chunks have the
canonical lengths and cover the requested size. -/
theorem esReadLoop_full (chunks : List (List Nat)) (cs size : Nat)
    (hcs : 0 < cs)
    (hshape : ∀ k chunk, chunks[k]? = some chunk →
      chunk.length = min cs (size - k * cs))
    (hcover : size ≤ chunks.length * cs) :
    ∀ fuel k, size ≤ (fuel + k) * cs →
      esReadLoop chunks cs 0 size fuel (min (k * cs) size) = some size := by
  intro fuel
  induction fuel with
  | zero =>
    intro k hk
    have hdone : min (k * cs) size = size := by
      simp only [Nat.zero_add] at hk
      omega
    rw [esReadLoop, if_pos hdone, hdone]
  | succ n ih =>
    intro k hk
    by_cases hdone : min (k * cs) size = size
    · rw [esReadLoop, if_pos hdone, hdone]
    · have hklt : k * cs < size := by omega
      have hmin : min (k * cs) size = k * cs := by omega
      rw [esReadLoop, if_neg hdone]
      dsimp only
      rw [if_neg (by omega : ¬ cs = 0)]
      have hklen : k < chunks.length := by
        by_contra hcon
        push_neg at hcon
        have := Nat.mul_le_mul_right cs hcon
        omega
      have hidx : (0 + min (k * cs) size) / cs = k := by
        rw [Nat.zero_add, hmin, Nat.mul_div_cancel _ hcs]
      have hget : chunks[(0 + min (k * cs) size) / cs]? = some chunks[k] := by
        rw [hidx]
        exact List.getElem?_eq_getElem hklen
      simp only [hget]
      have hloc : (0 + min (k * cs) size) % cs = 0 := by
        rw [Nat.zero_add, hmin]
        exact Nat.mul_mod_left k cs
      have hch : chunks[k].length = min cs (size - k * cs) :=
        hshape k chunks[k] (List.getElem?_eq_getElem hklen)
      rw [if_pos (by rw [hloc, hch]; omega)]
      have hnewread : min (k * cs) size
          + (min ((0 + min (k * cs) size) % cs + (size - min (k * cs) size)) cs
            - (0 + min (k * cs) size) % cs)
          = min ((k + 1) * cs) size := by
        rw [hloc, hmin]
        have hmul : (k + 1) * cs = k * cs + cs := Nat.succ_mul k cs
        omega
      rw [hnewread]
      apply ih (k + 1)
      have h1 : (n + 1 + k) * cs = (n + (k + 1)) * cs := by ring
      omega

/-- C1: for every directory entry with non-zero size whose resolved sector
chain covers its contents, `get_entry_slice` succeeds, the returned slice's
`len()` equals the entry size, and reading the slice to exhaustion produces
exactly that many bytes; once the logical length is exhausted further reads
return a short count of 0. -/
theorem entry_slice_reads_exact_size (secSize ssectorSize minStd : Nat)
    (body rootChain chain : List Nat) (size : Nat) (hsize : size ≠ 0)
    (hcov : if size < minStd
        then ShortCovers ssectorSize secSize body rootChain chain size
        else StdCovers secSize body chain size) :
    ∃ es, getEntrySlice secSize ssectorSize minStd body rootChain chain size
        = .ok es
      ∧ es.totalSize = size
      ∧ ∃ es2, esRead es size = some (size, es2)
          ∧ ∀ bufLen, esRead es2 bufLen = some (0, es2) := by
  by_cases hlt : size < minStd
  · rw [if_pos hlt] at hcov
    obtain ⟨hss, hle, hmap0, hcover⟩ := hcov
    obtain ⟨es, heq, hmap, hmax, htot, hrd⟩ :=
      getShortStreamSlicesAux_ok ssectorSize secSize body rootChain size hss hle
        chain 0 (entrySliceNew ssectorSize size) hmap0 (by simp [entrySliceNew])
    rw [show min (0 * ssectorSize) size = 0 from by simp] at heq
    simp only [entrySliceNew] at hmax htot hrd
    rw [Nat.zero_add] at hmap
    obtain ⟨hchlen, hshape⟩ := shape_of_map_eq hmap
    have hcover' : size ≤ es.chunks.length * ssectorSize := by
      rw [hchlen]
      exact hcover
    have hfuel : size ≤ (size + 1 + 0) * ssectorSize := by
      have h1 : 1 ≤ ssectorSize := hss
      have h2 := Nat.mul_le_mul_left (size + 1 + 0) h1
      omega
    have hloop := esReadLoop_full es.chunks ssectorSize size hss hshape hcover'
      (size + 1) 0 hfuel
    rw [show min (0 * ssectorSize) size = 0 from by simp] at hloop
    refine ⟨es, ?_, htot, ?_⟩
    · rw [getEntrySlice, if_neg hsize, if_pos hlt, getShortStreamSlices]
      exact heq
    · have h1 : min size (es.totalSize - es.read) = size := by
        rw [htot, hrd]
        omega
      refine ⟨{es with read := 0 + size}, ?_, ?_⟩
      · rw [esRead]
        rw [h1, if_neg hsize, hmax, hrd, hloop]
      · intro bufLen
        rw [esRead]
        dsimp only
        rw [htot]
        simp
  · rw [if_neg hlt] at hcov
    obtain ⟨hsec, hmap0, hcover⟩ := hcov
    obtain ⟨es, heq, hmap, hmax, htot, hrd⟩ :=
      getStreamSlicesAux_ok secSize body size chain 0
        (entrySliceNew secSize size) hmap0 (by simp [entrySliceNew])
    rw [show min (0 * secSize) size = 0 from by simp] at heq
    simp only [entrySliceNew] at hmax htot hrd
    rw [Nat.zero_add] at hmap
    obtain ⟨hchlen, hshape⟩ := shape_of_map_eq hmap
    have hcover' : size ≤ es.chunks.length * secSize := by
      rw [hchlen]
      exact hcover
    have hfuel : size ≤ (size + 1 + 0) * secSize := by
      have h1 : 1 ≤ secSize := hsec
      have h2 := Nat.mul_le_mul_left (size + 1 + 0) h1
      omega
    have hloop := esReadLoop_full es.chunks secSize size hsec hshape hcover'
      (size + 1) 0 hfuel
    rw [show min (0 * secSize) size = 0 from by simp] at hloop
    refine ⟨es, ?_, htot, ?_⟩
    · rw [getEntrySlice, if_neg hsize, if_neg hlt, getStreamSlices]
      exact heq
    · have h1 : min size (es.totalSize - es.read) = size := by
        rw [htot, hrd]
        omega
      refine ⟨{es with read := 0 + size}, ?_, ?_⟩
      · rw [esRead]
        rw [h1, if_neg hsize, hmax, hrd, hloop]
      · intro bufLen
        rw [esRead]
        dsimp only
        rw [htot]
        simp

/-- Witness for C1: a standard stream of 3 bytes over two 2-byte sectors in a
4-byte body. -/
theorem entry_slice_reads_exact_size_witness :
    ∃ es, getEntrySlice 2 1 0 [10, 20, 30, 40] [] [1, 0] 3 = .ok es
      ∧ es.totalSize = 3
      ∧ ∃ es2, esRead es 3 = some (3, es2)
          ∧ ∀ bufLen, esRead es2 bufLen = some (0, es2) :=
  entry_slice_reads_exact_size 2 1 0 [10, 20, 30, 40] [] [1, 0] 3 (by decide)
    (show StdCovers 2 [10, 20, 30, 40] [1, 0] 3 from
      ⟨by decide, by decide, by decide⟩)

theorem mem_insertSortedDedup {l : List Nat} {i x : Nat} :
    x ∈ insertSortedDedup l i ↔ x = i ∨ x ∈ l := by
  induction l with
  | nil => simp [insertSortedDedup]
  | cons j rest ih =>
    rw [insertSortedDedup]
    by_cases h1 : i < j
    · rw [if_pos h1]
      simp [List.mem_cons]
    · by_cases h2 : i = j
      · subst h2
        rw [if_neg h1, if_pos rfl]
        simp only [List.mem_cons]
        tauto
      · rw [if_neg h1, if_neg h2]
        simp only [List.mem_cons, ih]
        tauto

theorem pairwise_insertSortedDedup {l : List Nat}
    (hp : List.Pairwise (· < ·) l) (i : Nat) :
    List.Pairwise (· < ·) (insertSortedDedup l i) := by
  induction l with
  | nil => simp [insertSortedDedup]
  | cons j rest ih =>
    obtain ⟨hj, hrest⟩ := List.pairwise_cons.mp hp
    rw [insertSortedDedup]
    by_cases h1 : i < j
    · rw [if_pos h1]
      refine List.pairwise_cons.mpr ⟨?_, hp⟩
      intro a ha
      rcases List.mem_cons.mp ha with rfl | ha2
      · exact h1
      · exact lt_trans h1 (hj a ha2)
    · by_cases h2 : i = j
      · rw [if_neg h1, if_pos h2]
        exact hp
      · rw [if_neg h1, if_neg h2]
        refine List.pairwise_cons.mpr ⟨?_, ih hrest⟩
        intro a ha
        rcases mem_insertSortedDedup.mp ha with rfl | ha2
        · omega
        · exact hj a ha2

theorem pairwise_sortedDedup (l : List Nat) :
    List.Pairwise (· < ·) (sortedDedup l) := by
  suffices h : ∀ acc, List.Pairwise (· < ·) acc →
      List.Pairwise (· < ·) (l.foldl insertSortedDedup acc) by
    exact h [] (by simp)
  induction l with
  | nil => intro acc hacc; exact hacc
  | cons j rest ih =>
    intro acc hacc
    exact ih _ (pairwise_insertSortedDedup hacc j)

theorem mem_sortedDedup {l : List Nat} {x : Nat} :
    x ∈ sortedDedup l ↔ x ∈ l := by
  suffices h : ∀ acc, x ∈ l.foldl insertSortedDedup acc ↔ x ∈ acc ∨ x ∈ l by
    rw [sortedDedup, h []]
    simp
  induction l with
  | nil => intro acc; simp
  | cons j rest ih =>
    intro acc
    rw [List.foldl_cons, ih (insertSortedDedup acc j), mem_insertSortedDedup]
    simp only [List.mem_cons]
    tauto

theorem sortedDedup_append_singleton (l : List Nat) (i : Nat) :
    sortedDedup (l ++ [i]) = insertSortedDedup (sortedDedup l) i := by
  rw [sortedDedup, sortedDedup, List.foldl_append]
  rfl

theorem kvFold_append_singleton (l : List (Nat × String × DataType))
    (x : Nat × String × DataType) :
    kvFold (l ++ [x]) = propsInsert (kvFold l) x.2.1 x.2.2 := by
  rw [kvFold, kvFold, List.foldl_append]
  rfl

theorem filter_fst_eq_nil {l : List (Nat × String × DataType)} {i : Nat}
    (h : i ∉ l.map Prod.fst) :
    l.filter (fun kv => kv.1 == i) = [] := by
  induction l with
  | nil => rfl
  | cons x rest ih =>
    simp only [List.map_cons, List.mem_cons] at h
    push_neg at h
    rw [List.filter_cons, if_neg (by simp [Ne.symm h.1])]
    exact ih h.2

/-- `bucketsUpsert` on a map in canonical image form walks in parallel with
`insertSortedDedup` on the key list. -/
theorem bucketsUpsert_map_form :
    ∀ (ks : List Nat) (f : Nat → Props) (i : Nat) (k : String) (v : DataType),
      List.Pairwise (· < ·) ks →
      bucketsUpsert (ks.map (fun j => (j, f j))) i (k, v)
        = (insertSortedDedup ks i).map
            (fun j => (j, if j = i
                then propsInsert (if i ∈ ks then f i else []) k v
                else f j)) := by
  intro ks
  induction ks with
  | nil =>
    intro f i k v _
    simp [bucketsUpsert, insertSortedDedup]
  | cons j rest ih =>
    intro f i k v hp
    obtain ⟨hj, hrest⟩ := List.pairwise_cons.mp hp
    rw [List.map_cons]
    rw [insertSortedDedup]
    by_cases h1 : i < j
    · have hnotmem : i ∉ j :: rest := by
        intro hc
        rcases List.mem_cons.mp hc with rfl | hc2
        · omega
        · have := hj i hc2
          omega
      rw [show bucketsUpsert ((j, f j) :: rest.map (fun a => (a, f a))) i (k, v)
          = (i, propsInsert [] k v) :: (j, f j) :: rest.map (fun a => (a, f a))
          from by rw [bucketsUpsert, if_pos h1]]
      rw [if_pos h1, List.map_cons, List.map_cons]
      rw [if_pos rfl, if_neg hnotmem]
      rw [if_neg (show ¬ j = i from by omega)]
      congr 1
      congr 1
      apply List.map_congr_left
      intro a ha
      have hne : ¬ a = i := by
        intro hc
        exact hnotmem (hc ▸ List.mem_cons_of_mem j ha)
      rw [if_neg hne]
    · by_cases h2 : i = j
      · subst h2
        rw [show bucketsUpsert ((i, f i) :: rest.map (fun a => (a, f a))) i (k, v)
            = (i, propsInsert (f i) k v) :: rest.map (fun a => (a, f a))
            from by rw [bucketsUpsert, if_neg h1, if_pos rfl]]
        rw [if_neg h1, if_pos rfl, List.map_cons]
        rw [if_pos rfl, if_pos (List.mem_cons_self i rest)]
        congr 1
        apply List.map_congr_left
        intro a ha
        have hne : ¬ a = i := by
          have := hj a ha
          omega
        rw [if_neg hne]
      · have h3 : j < i := by omega
        rw [show bucketsUpsert ((j, f j) :: rest.map (fun a => (a, f a))) i (k, v)
            = (j, f j) :: bucketsUpsert (rest.map (fun a => (a, f a))) i (k, v)
            from by rw [bucketsUpsert, if_neg h1, if_neg h2]]
        rw [if_neg h1, if_neg h2, List.map_cons]
        rw [if_neg (show ¬ j = i from by omega)]
        congr 1
        rw [ih f i k v hrest]
        apply List.map_congr_left
        intro a _
        by_cases ha : a = i
        · rw [if_pos ha, if_pos ha]
          by_cases hmem : i ∈ rest
          · rw [if_pos hmem, if_pos (List.mem_cons_of_mem j hmem)]
          · rw [if_neg hmem, if_neg (by
              intro hc
              rcases List.mem_cons.mp hc with hc2 | hc2
              · exact h2 hc2
              · exact hmem hc2)]
        · rw [if_neg ha, if_neg ha]

/-- Folding `bucketsUpsert` from the empty map produces the canonically
sorted bucket list: one bucket per distinct key, in ascending key order, each
holding the fold of its own key-value pairs. -/
theorem foldl_bucketsUpsert (kvs : List (Nat × String × DataType)) :
    kvs.foldl (fun m kv => bucketsUpsert m kv.1 kv.2) []
      = (sortedDedup (kvs.map Prod.fst)).map
          (fun i => (i, kvFold (kvs.filter (fun kv => kv.1 == i)))) := by
  induction kvs using List.reverseRecOn with
  | nil => simp [sortedDedup, kvFold]
  | append_singleton l x ih =>
    obtain ⟨i, k, v⟩ := x
    rw [List.foldl_append, List.foldl_cons, List.foldl_nil, ih]
    rw [bucketsUpsert_map_form _ _ _ _ _ (pairwise_sortedDedup _)]
    simp only [List.map_append, List.map_cons, List.map_nil]
    rw [sortedDedup_append_singleton]
    apply List.map_congr_left
    intro a ha
    by_cases hai : a = i
    · subst hai
      rw [if_pos rfl]
      have hfilter : (l ++ [(a, k, v)]).filter (fun kv => kv.1 == a)
          = l.filter (fun kv => kv.1 == a) ++ [(a, k, v)] := by
        rw [List.filter_append]
        simp
      rw [hfilter, kvFold_append_singleton]
      by_cases hmem : a ∈ sortedDedup (l.map Prod.fst)
      · rw [if_pos hmem]
      · rw [if_neg hmem]
        rw [filter_fst_eq_nil (fun hc => hmem (mem_sortedDedup.mpr hc))]
        rfl
    · rw [if_neg hai]
      have hfilter : (l ++ [(i, k, v)]).filter (fun kv => kv.1 == a)
          = l.filter (fun kv => kv.1 == a) := by
        rw [List.filter_append]
        simp [show i ≠ a from fun hc => hai hc.symm]
      rw [hfilter]

theorem recipKVs_cons (sm : Nat → Option StorageType)
    (pm : List Char → Option String) (e : PEntry) (rest : List PEntry) :
    recipKVs sm pm (e :: rest)
      = (match streamOf sm pm e with
          | some s =>
            match s.parent with
            | .recipient i => [(i, s.key, s.value)]
            | _ => []
          | none => []) ++ recipKVs sm pm rest := by
  rw [recipKVs, List.filterMap_cons]
  cases hso : streamOf sm pm e with
  | none => simp [hso, recipKVs]
  | some s => cases hp : s.parent <;> simp [hso, hp, recipKVs]

theorem attachKVs_cons (sm : Nat → Option StorageType)
    (pm : List Char → Option String) (e : PEntry) (rest : List PEntry) :
    attachKVs sm pm (e :: rest)
      = (match streamOf sm pm e with
          | some s =>
            match s.parent with
            | .attachment i => [(i, s.key, s.value)]
            | _ => []
          | none => []) ++ attachKVs sm pm rest := by
  rw [attachKVs, List.filterMap_cons]
  cases hso : streamOf sm pm e with
  | none => simp [hso, attachKVs]
  | some s => cases hp : s.parent <;> simp [hso, hp, attachKVs]

/-- The recipient and attachment maps computed by the `process_streams` loop
are the folds of the routed key-value triples. -/
theorem processStreamsAux_buckets (sm : Nat → Option StorageType)
    (pm : List Char → Option String) :
    ∀ (es : List PEntry) (root : Props) (rmap amap : List (Nat × Props))
      (root' : Props) (rmap' amap' : List (Nat × Props)),
      processStreamsAux sm pm es root rmap amap = .ok (root', rmap', amap') →
      rmap' = (recipKVs sm pm es).foldl
          (fun m kv => bucketsUpsert m kv.1 kv.2) rmap
      ∧ amap' = (attachKVs sm pm es).foldl
          (fun m kv => bucketsUpsert m kv.1 kv.2) amap := by
  intro es
  induction es with
  | nil =>
    intro root rmap amap root' rmap' amap' h
    simp only [processStreamsAux, Except.ok.injEq, Prod.mk.injEq] at h
    obtain ⟨-, h2, h3⟩ := h
    subst h2
    subst h3
    simp [recipKVs, attachKVs]
  | cons e rest ih =>
    intro root rmap amap root' rmap' amap' h
    rw [processStreamsAux] at h
    rw [recipKVs_cons, attachKVs_cons]
    by_cases hty : e.entryType = .userStream
    · rw [if_pos hty] at h
      cases hcs : createStream sm pm e with
      | error u =>
        cases u
        rw [hcs] at h
        simp at h
      | ok os =>
        rw [hcs] at h
        cases os with
        | none =>
          have hso : streamOf sm pm e = none := by
            rw [streamOf, if_pos hty, hcs]
          rw [hso]
          simp only [List.nil_append]
          dsimp only at h
          exact ih _ _ _ _ _ _ h
        | some s =>
          dsimp only at h
          have hso : streamOf sm pm e = some s := by
            rw [streamOf, if_pos hty, hcs]
          cases hpar : s.parent with
          | rootEntry =>
            rw [hpar] at h
            dsimp only at h
            rw [show (match streamOf sm pm e with
                | some s =>
                  match s.parent with
                  | StorageType.recipient i => [(i, s.key, s.value)]
                  | _ => ([] : List (Nat × String × DataType))
                | none => []) = [] from by rw [hso]; dsimp only; rw [hpar]]
            rw [show (match streamOf sm pm e with
                | some s =>
                  match s.parent with
                  | StorageType.attachment i => [(i, s.key, s.value)]
                  | _ => ([] : List (Nat × String × DataType))
                | none => []) = [] from by rw [hso]; dsimp only; rw [hpar]]
            simp only [List.nil_append]
            exact ih _ _ _ _ _ _ h
          | recipient i =>
            rw [hpar] at h
            dsimp only at h
            rw [show (match streamOf sm pm e with
                | some s =>
                  match s.parent with
                  | StorageType.recipient i => [(i, s.key, s.value)]
                  | _ => ([] : List (Nat × String × DataType))
                | none => []) = [(i, s.key, s.value)] from by
              rw [hso]; dsimp only; rw [hpar]]
            rw [show (match streamOf sm pm e with
                | some s =>
                  match s.parent with
                  | StorageType.attachment i => [(i, s.key, s.value)]
                  | _ => ([] : List (Nat × String × DataType))
                | none => []) = [] from by rw [hso]; dsimp only; rw [hpar]]
            simp only [List.nil_append, List.singleton_append, List.foldl_cons]
            exact ih _ _ _ _ _ _ h
          | attachment i =>
            rw [hpar] at h
            dsimp only at h
            rw [show (match streamOf sm pm e with
                | some s =>
                  match s.parent with
                  | StorageType.recipient i => [(i, s.key, s.value)]
                  | _ => ([] : List (Nat × String × DataType))
                | none => []) = [] from by rw [hso]; dsimp only; rw [hpar]]
            rw [show (match streamOf sm pm e with
                | some s =>
                  match s.parent with
                  | StorageType.attachment i => [(i, s.key, s.value)]
                  | _ => ([] : List (Nat × String × DataType))
                | none => []) = [(i, s.key, s.value)] from by
              rw [hso]; dsimp only; rw [hpar]]
            simp only [List.nil_append, List.singleton_append, List.foldl_cons]
            exact ih _ _ _ _ _ _ h
    · rw [if_neg hty] at h
      have hso : streamOf sm pm e = none := by
        rw [streamOf, if_neg hty]
      rw [hso]
      simp only [List.nil_append]
      exact ih _ _ _ _ _ _ h

/-- C10: after `process_streams`, the recipients list holds exactly one
property map per distinct recipient index routed from the classified
storages, in ascending index order (strictly increasing distinct indices),
each map being the merged insertions of every stream carrying that index;
likewise for attachments.  In particular two storages with the same index
merge into one output map. -/
theorem recipients_one_bucket_per_index_sorted (sm : Nat → Option StorageType)
    (pm : List Char → Option String) (entries : List PEntry) (out : ProcessOut)
    (h : processStreams sm pm entries = .ok out) :
    out.recipients = (sortedDedup ((recipKVs sm pm entries).map Prod.fst)).map
        (fun i => kvFold ((recipKVs sm pm entries).filter (fun kv => kv.1 == i)))
    ∧ List.Pairwise (· < ·)
        (sortedDedup ((recipKVs sm pm entries).map Prod.fst))
    ∧ out.attachments = (sortedDedup ((attachKVs sm pm entries).map Prod.fst)).map
        (fun i => kvFold ((attachKVs sm pm entries).filter (fun kv => kv.1 == i)))
    ∧ List.Pairwise (· < ·)
        (sortedDedup ((attachKVs sm pm entries).map Prod.fst)) := by
  rw [processStreams] at h
  cases haux : processStreamsAux sm pm entries [] [] [] with
  | error u =>
    rw [haux] at h
    cases u
    simp at h
  | ok t =>
    obtain ⟨root, rmap, amap⟩ := t
    rw [haux] at h
    dsimp only at h
    rw [Except.ok.injEq] at h
    subst h
    obtain ⟨h1, h2⟩ :=
      processStreamsAux_buckets sm pm entries [] [] [] root rmap amap haux
    subst h1
    subst h2
    refine ⟨?_, pairwise_sortedDedup _, ?_, pairwise_sortedDedup _⟩
    · dsimp only
      rw [foldl_bucketsUpsert, toArr, List.map_map]
      rfl
    · dsimp only
      rw [foldl_bucketsUpsert, toArr, List.map_map]
      rfl

/-- Witness for C10: a single recipient stream under recipient index 7. -/
theorem recipients_one_bucket_per_index_sorted_witness :
    (ProcessOut.mk [] [[("DisplayName", DataType.ptypString [65])]] []).recipients
      = (sortedDedup ((recipKVs (fun _ => some (.recipient 7))
            (fun _ => some "DisplayName")
            [PEntry.mk .userStream ("__substg1.0_3001001F".toList) (some 0)
              (some [65, 0])]).map Prod.fst)).map
          (fun i => kvFold ((recipKVs (fun _ => some (.recipient 7))
            (fun _ => some "DisplayName")
            [PEntry.mk .userStream ("__substg1.0_3001001F".toList) (some 0)
              (some [65, 0])]).filter (fun kv => kv.1 == i))) :=
  (recipients_one_bucket_per_index_sorted (fun _ => some (.recipient 7))
    (fun _ => some "DisplayName")
    [PEntry.mk .userStream ("__substg1.0_3001001F".toList) (some 0)
      (some [65, 0])]
    (ProcessOut.mk [] [[("DisplayName", DataType.ptypString [65])]] [])
    (by decide)).1

end MsgParser
